import Mathlib

/-!
Verification of the perishable-inventory simulation engine.

The development shallowly embeds the TypeScript sources:
  * the deterministic Mulberry32-style RNG (`createRng`),
  * the batch ledger and its FIFO `takeFromBatches` operation,
  * the daily per-SKU pipeline and the simulation driver (`simulateInventory`),
  * the evaluator (`evaluateSimulation`) with its logistic normalization.

Modelling conventions:
  * JavaScript numbers are modelled as `ℚ` (exact rational arithmetic); the
    transcendental pieces of the demand model (`Math.pow` with a real exponent
    and the Box-Muller normal transform) are abstracted as an explicit
    `FloatOracle` parameter threaded through the simulation, indexed by the
    RNG call counter, so that the rest of the pipeline stays exact and
    executable.
  * The evaluator uses `ℝ` because its logistic normalization applies `exp`.
  * In-place array mutation is modelled by returning the updated list;
    `structuredClone` is the identity on values.
  * Thrown configuration errors are modelled with `Except SimError`.
-/

/-- JavaScript `Math.floor` on a finite number.  (`Rat.floor` computes
`num / den`, which the kernel can evaluate, unlike the `FloorRing` projection;
`jsFloor_eq` bridges to the Mathlib floor.) -/
def jsFloor (q : ℚ) : ℤ := q.floor

/-- JavaScript `Math.round`: round half toward positive infinity. -/
def jsRound (q : ℚ) : ℤ := jsFloor (q + 1 / 2)

/-- The `clamp01` helper from the simulation source: `max(0, min(1, x))`. -/
def clamp01 (x : ℚ) : ℚ := max 0 (min 1 x)

/-- SKU identifiers are strings. -/
abbrev Sku := String

/-- Batch state: the two disjoint inventory pools. -/
inductive BState where
  | fresh
  | frozen
deriving DecidableEq, Repr

/-- An inventory batch, as in `types.ts`: `{sku, qty, daysToExpire, state}`. -/
structure InventoryBatch where
  sku : Sku
  qty : ℚ
  daysToExpire : ℚ
  state : BState
deriving DecidableEq, Repr

/-- A pending delivery: `{sku, qty, arrivingInDays}`. -/
structure PendingDelivery where
  sku : Sku
  qty : ℚ
  arrivingInDays : ℚ
deriving DecidableEq, Repr

/-- The cross-day mutable store state: `{day, inventory, pendingDeliveries}`. -/
structure StoreState where
  day : ℚ
  inventory : List InventoryBatch
  pendingDeliveries : List PendingDelivery
deriving DecidableEq, Repr

/-- Immutable per-SKU economics, as in `ItemSpec` of `types.ts`. -/
structure ItemSpec where
  sku : Sku
  name : String
  category : String
  unitCost : ℚ
  basePrice : ℚ
  shelfLifeDays : ℚ
  leadTimeDays : ℚ
  baseDailyDemand : ℚ
  priceElasticity : ℚ
  shrinkRate : ℚ
  canFreeze : Bool
  freezeCostPerUnit : ℚ
  frozenShelfLifeDays : ℚ
  frozenPriceMultiplier : ℚ
deriving DecidableEq, Repr

/-- A markdown rule: `daysToExpire <= threshold => apply multiplier`. -/
structure PricingRule where
  daysToExpireAtMost : ℚ
  priceMultiplier : ℚ
deriving DecidableEq, Repr

/-- Per-SKU control policy, as in `ItemPolicy` of `types.ts`. -/
structure ItemPolicy where
  sku : Sku
  reorderPoint : ℚ
  orderUpTo : ℚ
  pricing : List PricingRule
  donateDaysToExpireAtMost : ℚ
  donateMaxFractionPerDay : ℚ
  freezeDaysToExpireAtMost : ℚ
  freezeMaxUnitsPerDay : ℚ
deriving DecidableEq, Repr

/-- A policy aggregates one `ItemPolicy` per SKU; the record
`perSku : Record<Sku, ItemPolicy>` is modelled as a partial map. -/
structure InventoryPolicy where
  id : String
  name : String
  perSku : Sku → Option ItemPolicy

/-- Simulation configuration, as in `SimulationConfig` of `types.ts`.
The day count and seed are the nonnegative integers the spec requires of
pre-validated inputs. -/
structure SimulationConfig where
  days : ℕ
  seed : ℕ
  holdingCostPerUnitPerDay : ℚ
  wasteDisposalCostPerUnit : ℚ
  demandNoiseStdDev : ℚ
  countStockouts : Bool
deriving DecidableEq, Repr

/-- Per-day per-SKU output metrics, as in `DaySkuMetrics` of `types.ts`. -/
structure DaySkuMetrics where
  sku : Sku
  startingFresh : ℚ
  startingFrozen : ℚ
  price : ℚ
  priceMultiplier : ℚ
  demand : ℚ
  soldFresh : ℚ
  soldFrozen : ℚ
  stockout : ℚ
  donated : ℚ
  frozenMoved : ℚ
  wasted : ℚ
  shrinkLost : ℚ
  revenue : ℚ
  cogs : ℚ
  holdingCost : ℚ
  wasteCost : ℚ
  freezeCost : ℚ
deriving DecidableEq, Repr

/-- One day of per-SKU metrics. -/
structure DayMetrics where
  day : ℚ
  perSku : List DaySkuMetrics
deriving DecidableEq, Repr

/-- Running totals accumulated across SKUs and days. -/
structure SimTotals where
  revenue : ℚ
  cogs : ℚ
  holdingCost : ℚ
  wasteCost : ℚ
  freezeCost : ℚ
  profit : ℚ
  demand : ℚ
  sold : ℚ
  stockout : ℚ
  wasted : ℚ
  donated : ℚ
deriving DecidableEq, Repr

/-- The simulation result record (the `items`/`policy` echoes are omitted
from the embedded record only because `InventoryPolicy` carries a function;
`config` and the full trace are kept). -/
structure SimulationResult where
  config : SimulationConfig
  days : List DayMetrics
  totals : SimTotals
deriving DecidableEq, Repr

/-- Fatal configuration errors thrown before any day is simulated.  The
JavaScript message embeds the offending SKU; the constructor carries it. -/
inductive SimError where
  | missingPolicy (sku : Sku)
deriving DecidableEq, Repr

/-- Abstraction of the two floating-point-transcendental ingredients of the
demand model: `Math.pow` (real exponent) and the value returned by the i-th
call to the Box-Muller standard normal draw of `createRng`.  Everything else
in the pipeline is exact rational arithmetic. -/
structure FloatOracle where
  pow : ℚ → ℚ → ℚ
  normal : ℕ → ℚ

/-- Sum of `qty` over the batches satisfying a predicate; the shape shared by
every quantity query in the source (`sumQty`, eligibility scans, waste scans). -/
def sumOver (p : InventoryBatch → Bool) : List InventoryBatch → ℚ
  | [] => 0
  | b :: bs => (if p b then b.qty else 0) + sumOver p bs

/-- Batch-key predicate: batch belongs to the `(sku, state)` pool. -/
def keyB (k : Sku) (st : BState) (b : InventoryBatch) : Bool :=
  b.sku == k && b.state == st

/-- The `sumQty` query from the simulation source: total on-hand quantity of
one `(sku, state)` pool. -/
def sumQty (batches : List InventoryBatch) (k : Sku) (st : BState) : ℚ :=
  sumOver (keyB k st) batches

/-- The `sortFifo` helper: sort batches so the soonest-expiring come first.
`Array.prototype.sort` is stable, which insertion sort reproduces. -/
def sortFifo (batches : List InventoryBatch) : List InventoryBatch :=
  List.insertionSort (fun a b => a.daysToExpire ≤ b.daysToExpire) batches

/-- The scanning loop of `takeFromBatches`: walk the (sorted) ledger, removing
up to `remaining` units from the `(k, st)` pool, soonest-expiring first.
Returns the amount taken and the ledger with quantities decremented in place. -/
def takeGo (k : Sku) (st : BState) : ℚ → List InventoryBatch → ℚ × List InventoryBatch
  | _, [] => (0, [])
  | remaining, b :: bs =>
    if remaining ≤ 0 then (0, b :: bs)
    else if keyB k st b && decide (0 < b.qty) then
      let q := min b.qty remaining
      let r := takeGo k st (remaining - q) bs
      (q + r.1, { b with qty := b.qty - q } :: r.2)
    else
      let r := takeGo k st remaining bs
      (r.1, b :: r.2)

/-- The `takeFromBatches` operation: FIFO-by-expiry removal of up to
`qtyWanted` units from the `(k, st)` pool, pruning emptied batches. -/
def takeFromBatches (batches : List InventoryBatch) (k : Sku) (st : BState)
    (qtyWanted : ℚ) : ℚ × List InventoryBatch :=
  if qtyWanted ≤ 0 then (0, batches)
  else
    let r := takeGo k st qtyWanted (sortFifo batches)
    (r.1, r.2.filter fun b => decide (0 < b.qty))

/-- Batch-and-expiry predicate: batch belongs to the `(sku, state)` pool and
expires in exactly `d` days. -/
def dteKey (k : Sku) (st : BState) (d : ℚ) (b : InventoryBatch) : Bool :=
  keyB k st b && decide (b.daysToExpire = d)

instance : IsTotal InventoryBatch (fun a b => a.daysToExpire ≤ b.daysToExpire) :=
  ⟨fun a b => le_total a.daysToExpire b.daysToExpire⟩

instance : IsTrans InventoryBatch (fun a b => a.daysToExpire ≤ b.daysToExpire) :=
  ⟨fun _ _ _ hab hbc => le_trans hab hbc⟩

/-- The freeze-conversion loop: walk the sorted ledger moving fresh batches of
this SKU whose expiry is at or under the freeze threshold into new frozen
batches (shelf life reset), soonest-expiring first, up to the daily cap.
Returns (moved, updated originals, new frozen batches); the source pushes the
new batches to the end of the array while iterating, where the loop skips them
because their state is not fresh. -/
def freezeGo (item : ItemSpec) (p : ItemPolicy) :
    ℚ → List InventoryBatch → ℚ × List InventoryBatch × List InventoryBatch
  | _, [] => (0, [], [])
  | cap, b :: bs =>
    if cap ≤ 0 then (0, b :: bs, [])
    else if keyB item.sku .fresh b &&
        decide (b.daysToExpire ≤ p.freezeDaysToExpireAtMost) && decide (0 < b.qty) then
      let q := min b.qty cap
      let r := freezeGo item p (cap - q) bs
      (q + r.1, { b with qty := b.qty - q } :: r.2.1,
        ⟨item.sku, q, ((max 1 (jsRound item.frozenShelfLifeDays) : ℤ) : ℚ), .frozen⟩ :: r.2.2)
    else
      let r := freezeGo item p cap bs
      (r.1, b :: r.2.1, r.2.2)

/-- The freeze-conversion stage of the per-SKU pipeline (step 2).  Runs only
when the item can be frozen and the daily cap is positive; sorts the ledger,
moves eligible fresh units frozen, and prunes emptied batches. -/
def freezeStage (item : ItemSpec) (p : ItemPolicy) (inv : List InventoryBatch) :
    ℚ × List InventoryBatch :=
  if item.canFreeze && decide (0 < p.freezeMaxUnitsPerDay) then
    let r := freezeGo item p ((max 0 (jsFloor p.freezeMaxUnitsPerDay) : ℤ) : ℚ)
      (sortFifo inv)
    (r.1, (r.2.1 ++ r.2.2).filter fun b => decide (0 < b.qty))
  else (0, inv)

/-- The donation stage of the per-SKU pipeline (step 3).  Computes the eligible
fresh quantity at or under the donation expiry threshold, caps donated units at
`floor(eligible * fraction)`, and removes them with a FIFO take. -/
def donateStage (item : ItemSpec) (p : ItemPolicy) (inv : List InventoryBatch) :
    ℚ × List InventoryBatch :=
  if 0 < p.donateMaxFractionPerDay then
    let maxFraction := clamp01 p.donateMaxFractionPerDay
    let sorted := sortFifo inv
    let eligible := sumOver
      (fun b => keyB item.sku .fresh b &&
        decide (b.daysToExpire ≤ p.donateDaysToExpireAtMost)) sorted
    takeFromBatches sorted item.sku .fresh ((jsFloor (eligible * maxFraction) : ℤ) : ℚ)
  else (0, inv)

/-- The `applyPricing` helper: scan markdown rules ascending by threshold and
use the first whose threshold covers the most urgent remaining shelf life;
the multiplier defaults to 1 and the price is floored at 0. -/
def applyPricing (item : ItemSpec) (p : ItemPolicy) (minDaysToExpireFresh : ℚ) :
    ℚ × ℚ :=
  let rules := List.insertionSort
    (fun a b => a.daysToExpireAtMost ≤ b.daysToExpireAtMost) p.pricing
  let multiplier := match rules.find?
      (fun r => decide (minDaysToExpireFresh ≤ r.daysToExpireAtMost)) with
    | some r => r.priceMultiplier
    | none => 1
  (max 0 (item.basePrice * multiplier), multiplier)

/-- The pricing stage of the per-SKU pipeline (step 4): the most urgent fresh
batch of this SKU drives the markdown; the full shelf life is used when no
fresh batch remains (the `Infinity` sentinel of the source). -/
def pricingStage (item : ItemSpec) (p : ItemPolicy) (inv : List InventoryBatch) :
    ℚ × ℚ :=
  let freshDays := (inv.filter fun b => keyB item.sku .fresh b).map
    (fun b => b.daysToExpire)
  let minDays := match freshDays.min? with
    | some m => m
    | none => item.shelfLifeDays
  applyPricing item p ((max 0 (jsFloor minDays) : ℤ) : ℚ)

/-- The `demandForDay` helper: baseline demand scaled by the price effect
(`pow(max(0.05, multiplier), elasticity)`) and by a multiplicative noise factor
`max(0, 1 + normal(0, stdDev))`; the i-th normal draw comes from the oracle. -/
def demandForDay (oracle : FloatOracle) (item : ItemSpec) (priceMultiplier : ℚ)
    (noiseIdx : ℕ) (demandNoiseStdDev : ℚ) : ℚ :=
  let base := max 0 item.baseDailyDemand
  let priceEffect := oracle.pow (max (1 / 20) priceMultiplier) item.priceElasticity
  let noise := max 0 (1 + (0 + oracle.normal noiseIdx * demandNoiseStdDev))
  max 0 (base * priceEffect * noise)

/-- The fulfillment stage of the per-SKU pipeline (step 6): sell fresh first,
then serve the remainder from frozen stock. -/
def sellStage (item : ItemSpec) (demandInt : ℚ) (inv : List InventoryBatch) :
    ℚ × ℚ × List InventoryBatch :=
  let sf := takeFromBatches inv item.sku .fresh demandInt
  let remainingDemand := max 0 (demandInt - sf.1)
  let sz := if 0 < remainingDemand
    then takeFromBatches sf.2 item.sku .frozen remainingDemand
    else (0, sf.2)
  (sf.1, sz.1, sz.2)

/-- Output of the shrink stage: the computed loss recorded in the metrics and
the amounts actually removed from each pool. -/
structure ShrinkOut where
  shrinkLost : ℚ
  fresh : ℚ
  frozen : ℚ
  inv : List InventoryBatch

/-- Removal part of the shrink stage, parameterized by the computed loss:
remove `shrinkLost` units, fresh first and the remainder from frozen. -/
def shrinkTake (item : ItemSpec) (shrinkLost : ℚ) (inv : List InventoryBatch) :
    ShrinkOut :=
  if 0 < shrinkLost then
    let tf := takeFromBatches inv item.sku .fresh shrinkLost
    let lostFrozen := shrinkLost - tf.1
    let tz := if 0 < lostFrozen
      then takeFromBatches tf.2 item.sku .frozen lostFrozen
      else (0, tf.2)
    { shrinkLost := shrinkLost, fresh := tf.1, frozen := tz.1, inv := tz.2 }
  else { shrinkLost := shrinkLost, fresh := 0, frozen := 0, inv := inv }

/-- The shrink stage of the per-SKU pipeline (step 7):
`floor(on-hand * clamp01(shrinkRate))` units are removed, fresh first and the
remainder from frozen. -/
def shrinkStage (item : ItemSpec) (inv : List InventoryBatch) : ShrinkOut :=
  shrinkTake item
    ((jsFloor ((sumQty inv item.sku .fresh + sumQty inv item.sku .frozen) *
      clamp01 item.shrinkRate) : ℤ) : ℚ) inv

/-- Output of the aging stage: total wasted quantity as recorded in the
metrics, its split by pool, and the surviving ledger. -/
structure AgeOut where
  wasted : ℚ
  wastedFresh : ℚ
  wastedFrozen : ℚ
  inv : List InventoryBatch

/-- The aging stage of the per-SKU pipeline (step 8): decrement `daysToExpire`
on every batch of this SKU; batches at zero or below become wasted quantity
and are removed. -/
def ageF (k : Sku) (b : InventoryBatch) : InventoryBatch :=
  if b.sku == k then { b with daysToExpire := b.daysToExpire - 1 } else b

def ageStage (k : Sku) (inv : List InventoryBatch) : AgeOut :=
  let aged := inv.map (ageF k)
  { wasted := sumOver (fun b => (b.sku == k) && decide (b.daysToExpire ≤ 0)) aged
    wastedFresh := sumOver
      (fun b => keyB k .fresh b && decide (b.daysToExpire ≤ 0)) aged
    wastedFrozen := sumOver
      (fun b => keyB k .frozen b && decide (b.daysToExpire ≤ 0)) aged
    inv := aged.filter fun b => !((b.sku == k) && decide (b.daysToExpire ≤ 0)) }

/-- The replenishment stage of the per-SKU pipeline (step 9): when the
post-aging fresh on-hand is at or under the reorder point and the rounded
order-up-to level exceeds it, enqueue a delivery for the difference, arriving
after the rounded nonnegative lead time. -/
def reorderStage (item : ItemSpec) (p : ItemPolicy) (inv : List InventoryBatch)
    (pending : List PendingDelivery) : List PendingDelivery :=
  let freshOnHandNow := sumQty inv item.sku .fresh
  if freshOnHandNow ≤ p.reorderPoint then
    let target : ℚ := ((max 0 (jsRound p.orderUpTo) : ℤ) : ℚ)
    let need := max 0 (target - freshOnHandNow)
    if 0 < need then
      pending ++ [⟨item.sku, need, ((max 0 (jsRound item.leadTimeDays) : ℤ) : ℚ)⟩]
    else pending
  else pending

/-- Output of one SKU's daily pipeline run: the metrics row pushed to the
trace, the fresh/frozen split of the shrink and waste removals (needed to
state conservation), and the updated ledger and delivery queue. -/
structure SkuStepOut where
  metrics : DaySkuMetrics
  shrinkFresh : ℚ
  shrinkFrozen : ℚ
  wastedFresh : ℚ
  wastedFrozen : ℚ
  inv : List InventoryBatch
  pending : List PendingDelivery

/-- One SKU's daily pipeline (steps 2-10 of the source loop body): freeze,
donate, price, realize demand, sell, shrink, record holding cost, age/waste,
reorder, financial rollup. -/
def processSku (oracle : FloatOracle) (cfg : SimulationConfig) (item : ItemSpec)
    (p : ItemPolicy) (inv0 : List InventoryBatch) (pending0 : List PendingDelivery)
    (noiseIdx : ℕ) : SkuStepOut :=
  let startingFresh := sumQty inv0 item.sku .fresh
  let startingFrozen := sumQty inv0 item.sku .frozen
  let fz := freezeStage item p inv0
  let dn := donateStage item p fz.2
  let pr := pricingStage item p dn.2
  let demand := demandForDay oracle item pr.2 noiseIdx cfg.demandNoiseStdDev
  let demandInt : ℚ := ((max 0 (jsFloor demand) : ℤ) : ℚ)
  let sl := sellStage item demandInt dn.2
  let unmet := max 0 (demandInt - sl.1 - sl.2.1)
  let stockout := if cfg.countStockouts then unmet else 0
  let sh := shrinkStage item sl.2.2
  let endingFresh := sumQty sh.inv item.sku .fresh
  let endingFrozen := sumQty sh.inv item.sku .frozen
  let holdingCost := (endingFresh + endingFrozen) * cfg.holdingCostPerUnitPerDay
  let ag := ageStage item.sku sh.inv
  let pending1 := reorderStage item p ag.inv pending0
  let frozenUnitPrice := item.basePrice * item.frozenPriceMultiplier
  let revenue := sl.1 * pr.1 + sl.2.1 * frozenUnitPrice
  let cogs := (sl.1 + sl.2.1) * item.unitCost
  let wasteCost := ag.wasted * cfg.wasteDisposalCostPerUnit
  let freezeCost := fz.1 * item.freezeCostPerUnit
  let m : DaySkuMetrics :=
    { sku := item.sku, startingFresh := startingFresh,
      startingFrozen := startingFrozen, price := pr.1, priceMultiplier := pr.2,
      demand := demandInt, soldFresh := sl.1, soldFrozen := sl.2.1,
      stockout := stockout, donated := dn.1, frozenMoved := fz.1,
      wasted := ag.wasted, shrinkLost := sh.shrinkLost, revenue := revenue,
      cogs := cogs, holdingCost := holdingCost, wasteCost := wasteCost,
      freezeCost := freezeCost }
  { metrics := m, shrinkFresh := sh.fresh, shrinkFrozen := sh.frozen,
    wastedFresh := ag.wastedFresh, wastedFrozen := ag.wastedFrozen,
    inv := ag.inv, pending := pending1 }

/-- Sum of the (rounded, clamped) quantities of the pending deliveries
satisfying a predicate — the units such deliveries contribute on receipt. -/
def pendSum (pr : PendingDelivery → Bool) : List PendingDelivery → ℚ
  | [] => 0
  | d :: ds =>
    (if pr d then ((max 0 (jsRound d.qty) : ℤ) : ℚ) else 0) + pendSum pr ds

/-- The fresh batches created by the deliveries of `pend` that arrive today
(counter at zero or below after the decrement); deliveries whose SKU is not in
the catalog are skipped, as in the source. -/
def newBatches (items : List ItemSpec) (pend : List PendingDelivery) :
    List InventoryBatch :=
  (((pend.map fun d => { d with arrivingInDays := d.arrivingInDays - 1 }).filter
      fun d => decide (d.arrivingInDays ≤ 0)).filterMap
    fun a => (items.find? fun it => it.sku == a.sku).map
      fun item => (⟨a.sku, ((max 0 (jsRound a.qty) : ℤ) : ℚ),
        ((max 1 (jsRound item.shelfLifeDays) : ℤ) : ℚ), .fresh⟩ : InventoryBatch))

/-- The delivery-receipt step run once per day before the per-SKU loop
(step 1): decrement every countdown, receive the deliveries at zero or below
as fresh batches at full shelf life, keep the rest pending. -/
def receiveStep (items : List ItemSpec) (st : StoreState) : StoreState :=
  { day := st.day,
    inventory := st.inventory ++ newBatches items st.pendingDeliveries,
    pendingDeliveries :=
      (st.pendingDeliveries.map
        fun d => { d with arrivingInDays := d.arrivingInDays - 1 }).filter
        fun d => decide (0 < d.arrivingInDays) }

/-- The per-day loop over the catalog (fixed order): run the per-SKU pipeline
for every item, threading the shared ledger, the delivery queue and the RNG
call counter.  The policy lookup cannot miss after the pre-run completeness
check (the non-null assertion of the source); a missing entry skips the item
to keep the function total. -/
def processItems (oracle : FloatOracle) (cfg : SimulationConfig)
    (policy : InventoryPolicy) :
    List ItemSpec → List InventoryBatch → List PendingDelivery → ℕ →
      List SkuStepOut × List InventoryBatch × List PendingDelivery × ℕ
  | [], inv, pend, n => ([], inv, pend, n)
  | item :: rest, inv, pend, n =>
    match policy.perSku item.sku with
    | none => processItems oracle cfg policy rest inv pend n
    | some p =>
      let out := processSku oracle cfg item p inv pend n
      let r := processItems oracle cfg policy rest out.inv out.pending (n + 1)
      (out :: r.1, r.2)

/-- One full simulated day (the body of the day loop): receive deliveries,
run the per-SKU pipeline over the whole catalog in order, advance the day
counter. -/
def runDay (oracle : FloatOracle) (cfg : SimulationConfig)
    (policy : InventoryPolicy) (items : List ItemSpec) (st : StoreState)
    (n : ℕ) : List SkuStepOut × StoreState × ℕ :=
  let s1 := receiveStep items st
  let r := processItems oracle cfg policy items s1.inventory s1.pendingDeliveries n
  let st2 : StoreState :=
    { day := st.day + 1, inventory := r.2.1, pendingDeliveries := r.2.2.1 }
  (r.1, st2, r.2.2.2)

/-- Per-SKU metric accumulation into the running totals (the `totals.x += ...`
block of the loop body); `profit` is finalized after the loop. -/
def addSkuTotals (t : SimTotals) (m : DaySkuMetrics) : SimTotals :=
  { revenue := t.revenue + m.revenue, cogs := t.cogs + m.cogs,
    holdingCost := t.holdingCost + m.holdingCost,
    wasteCost := t.wasteCost + m.wasteCost,
    freezeCost := t.freezeCost + m.freezeCost, profit := t.profit,
    demand := t.demand + m.demand, sold := t.sold + m.soldFresh + m.soldFrozen,
    stockout := t.stockout + m.stockout, wasted := t.wasted + m.wasted,
    donated := t.donated + m.donated }

/-- The all-zero totals the run starts from. -/
def zeroTotals : SimTotals := ⟨0, 0, 0, 0, 0, 0, 0, 0, 0, 0, 0⟩

/-- The day loop: run `runDay` for each day index, collecting the per-day
metric rows. -/
def runDaysGo (oracle : FloatOracle) (cfg : SimulationConfig)
    (policy : InventoryPolicy) (items : List ItemSpec) :
    List ℕ → StoreState → ℕ → List DayMetrics × StoreState × ℕ
  | [], st, n => ([], st, n)
  | d :: ds, st, n =>
    let r := runDay oracle cfg policy items st n
    let rest := runDaysGo oracle cfg policy items ds r.2.1 r.2.2
    ({ day := (d : ℚ), perSku := r.1.map (fun o => o.metrics) } :: rest.1, rest.2)

/-- The `createInitialState` export: one full fresh batch per SKU at the
order-up-to level (rounded, clamped at zero; zero-quantity batches are not
created). -/
def createInitialState (items : List ItemSpec) (policy : InventoryPolicy) :
    StoreState :=
  { day := 0,
    inventory := items.filterMap fun item =>
      (policy.perSku item.sku).bind fun p =>
        if 0 < ((max 0 (jsRound p.orderUpTo) : ℤ) : ℚ) then
          some (⟨item.sku, ((max 0 (jsRound p.orderUpTo) : ℤ) : ℚ),
            ((max 1 (jsRound item.shelfLifeDays) : ℤ) : ℚ), .fresh⟩ :
            InventoryBatch)
        else none,
    pendingDeliveries := [] }

/-- The simulation driver `simulateInventory`: check the policy covers every
catalog SKU (throwing a configuration error naming the first offender before
any day is simulated), deep-clone or build the initial state, run the day
loop, accumulate totals and finalize profit. -/
def simulateInventory (oracle : FloatOracle) (items : List ItemSpec)
    (policy : InventoryPolicy) (config : SimulationConfig)
    (initialState : Option StoreState) : Except SimError SimulationResult :=
  match items.find? (fun it => (policy.perSku it.sku).isNone) with
  | some it => .error (.missingPolicy it.sku)
  | none =>
    let st0 := match initialState with
      | some s => s
      | none => createInitialState items policy
    let r := runDaysGo oracle config policy items (List.range config.days) st0 0
    let t0 := r.1.foldl (fun t dm => dm.perSku.foldl addSkuTotals t) zeroTotals
    let totals := { t0 with
      profit := t0.revenue - t0.cogs - t0.holdingCost - t0.wasteCost -
        t0.freezeCost }
    .ok { config := config, days := r.1, totals := totals }

/-- `Math.imul` in the unsigned 32-bit representation. -/
def imul32 (a b : ℕ) : ℕ := a * b % 2 ^ 32

/-- The bit-mixing body of the Mulberry32-style `next`; the JavaScript bitwise
operators act on the operand modulo `2^32` (unsigned representation). -/
def rngMix (t : ℕ) : ℕ :=
  let x0 := t % 2 ^ 32
  let x1 := imul32 (x0 ^^^ (x0 >>> 15)) (x0 ||| 1)
  let x2 := x1 ^^^ ((x1 + imul32 (x1 ^^^ (x1 >>> 7)) (x1 ||| 61)) % 2 ^ 32)
  x2 ^^^ (x2 >>> 14)

/-- One call of `next()`: advance the additive state by `0x6d2b79f5` and mix.
The source keeps the growing sum in a double (exact below `2^53`); only its
value modulo `2^32` feeds the mixer.  Returns the uniform draw in `[0, 1)`
and the new state. -/
def rngNext (t : ℕ) : ℚ × ℕ :=
  let t2 := t + 0x6d2b79f5
  ((rngMix t2 : ℚ) / 4294967296, t2)

/-- The initial RNG state: `seed >>> 0`. -/
def createRngState (seed : ℕ) : ℕ := seed % 2 ^ 32

/-- A JavaScript number argument: finite (a rational) or one of the
non-finite values. -/
inductive JsNum where
  | num (q : ℚ)
  | nan
  | posInf
  | negInf
deriving DecidableEq, Repr

/-- `Number.isFinite` on an argument. -/
def JsNum.isFinite : JsNum → Bool
  | num _ => true
  | _ => false

/-- The `int(minInclusive, maxInclusive)` draw of `createRng`: reject
non-finite bounds (first check), then reject `max < min`, else return
`min + floor(next() * (max - min + 1))`. -/
def rngInt (minInclusive maxInclusive : JsNum) (t : ℕ) :
    Except String (ℚ × ℕ) :=
  match minInclusive, maxInclusive with
  | .num a, .num b =>
    if b < a then .error "Rng.int max must be >= min"
    else
      let r := rngNext t
      .ok (a + ((jsFloor (r.1 * (b - a + 1)) : ℤ) : ℚ), r.2)
  | _, _ => .error "Rng.int bounds must be finite numbers"

/-- The four objective weights of the evaluator. -/
structure ScoreWeights where
  profit : ℝ
  wasteReduction : ℝ
  satisfaction : ℝ
  humanitarian : ℝ

/-- Normalization targets and weights, as in `EvalConfig` of `types.ts`. -/
structure EvalConfig where
  weights : ScoreWeights
  profitPerDayTarget : ℝ
  wasteRateTarget : ℝ
  satisfactionTarget : ℝ
  donationRateTarget : ℝ

/-- The four sub-scores of the evaluation. -/
structure ScoreBreakdown where
  profitScore : ℝ
  wasteReductionScore : ℝ
  satisfactionScore : ℝ
  humanitarianScore : ℝ

/-- The four raw rates of the evaluation. -/
structure RawRates where
  profitPerDay : ℝ
  wasteRate : ℝ
  fillRate : ℝ
  donationRate : ℝ

/-- The evaluator output, as in `EvaluationResult` of `types.ts`. -/
structure EvaluationResult where
  score : ℝ
  breakdown : ScoreBreakdown
  raw : RawRates

/-- The real-valued `clamp01` of the evaluator source. -/
noncomputable def clamp01R (x : ℝ) : ℝ := max 0 (min 1 x)

/-- The `safeDiv` guard: a zero (or, in JavaScript, non-finite) denominator
yields zero instead of propagating; real numbers are always finite, so only
the zero test remains. -/
noncomputable def safeDiv (n d : ℝ) : ℝ := if d = 0 then 0 else n / d

/-- Logistic normalization for higher-is-better rates:
`1 / (1 + exp(-3 * (value / target - 1)))`, clamped; a non-positive target
degenerates to an indicator of `value > 0`. -/
noncomputable def normalizePositive (value target : ℝ) : ℝ :=
  if target ≤ 0 then clamp01R (if 0 < value then 1 else 0)
  else clamp01R (1 / (1 + Real.exp (-3 * (value / target - 1))))

/-- Mirrored logistic normalization for the lower-is-better waste rate:
`1 / (1 + exp(3 * (value / target - 1)))`, clamped; a non-positive target
degenerates to an indicator of `value ≤ 0`. -/
noncomputable def normalizeLowerIsBetter (value target : ℝ) : ℝ :=
  if target ≤ 0 then clamp01R (if value ≤ 0 then 1 else 0)
  else clamp01R (1 / (1 + Real.exp (3 * (value / target - 1))))

/-- The evaluator `evaluateSimulation`: compute the four raw rates from the
final totals (denominators floored at 1), normalize each against its target,
and combine them by the weights (weight sum floored at `1e-9`). -/
noncomputable def evaluateSimulation (sim : SimulationResult) (cfg : EvalConfig) :
    EvaluationResult :=
  let days : ℝ := max 1 (sim.config.days : ℝ)
  let handled : ℝ := (sim.totals.sold : ℝ) + (sim.totals.wasted : ℝ) +
    (sim.totals.donated : ℝ)
  let profitPerDay := (sim.totals.profit : ℝ) / days
  let wasteRate := safeDiv (sim.totals.wasted : ℝ) (max 1 handled)
  let fillRate := 1 - safeDiv (sim.totals.stockout : ℝ)
    (max 1 (sim.totals.demand : ℝ))
  let donationRate := safeDiv (sim.totals.donated : ℝ) (max 1 handled)
  let profitScore := normalizePositive profitPerDay cfg.profitPerDayTarget
  let wasteReductionScore := normalizeLowerIsBetter wasteRate cfg.wasteRateTarget
  let satisfactionScore := normalizePositive fillRate cfg.satisfactionTarget
  let humanitarianScore := normalizePositive donationRate cfg.donationRateTarget
  let w := cfg.weights
  let denom := max (1 / 10 ^ 9)
    (w.profit + w.wasteReduction + w.satisfaction + w.humanitarian)
  let score := (w.profit * profitScore + w.wasteReduction * wasteReductionScore +
    w.satisfaction * satisfactionScore + w.humanitarian * humanitarianScore) /
    denom
  { score := clamp01R score,
    breakdown :=
      { profitScore := profitScore, wasteReductionScore := wasteReductionScore,
        satisfactionScore := satisfactionScore,
        humanitarianScore := humanitarianScore },
    raw :=
      { profitPerDay := profitPerDay, wasteRate := wasteRate,
        fillRate := clamp01R fillRate, donationRate := donationRate } }

deriving instance DecidableEq for Except

/-- The trivial transcendental oracle used for concrete runs (with
`baseDailyDemand = 0` the demand pipeline yields 0 for every oracle). -/
def oracle0 : FloatOracle := ⟨fun _ _ => 0, fun _ => 0⟩

/-- Concrete catalog item: no demand, no freeze, no shrink. -/
def itemA : ItemSpec :=
  { sku := "A", name := "Apples", category := "produce", unitCost := 1,
    basePrice := 2, shelfLifeDays := 5, leadTimeDays := 2, baseDailyDemand := 0,
    priceElasticity := 0, shrinkRate := 0, canFreeze := false,
    freezeCostPerUnit := 0, frozenShelfLifeDays := 0, frozenPriceMultiplier := 1 }

/-- Concrete policy entry for `itemA` with replenishment disabled. -/
def polItemA : ItemPolicy :=
  { sku := "A", reorderPoint := -1, orderUpTo := 0, pricing := [],
    donateDaysToExpireAtMost := 0, donateMaxFractionPerDay := 0,
    freezeDaysToExpireAtMost := 0, freezeMaxUnitsPerDay := 0 }

/-- Concrete policy covering only SKU `A`. -/
def policyA : InventoryPolicy :=
  { id := "p", name := "p",
    perSku := fun s => if s = "A" then some polItemA else none }

/-- Concrete one-day configuration with unit holding cost. -/
def cfgA : SimulationConfig :=
  { days := 1, seed := 0, holdingCostPerUnitPerDay := 1,
    wasteDisposalCostPerUnit := 0, demandNoiseStdDev := 0, countStockouts := true }

/-- Concrete starting state: ten fresh units of `A` expiring tomorrow. -/
def stA : StoreState :=
  { day := 0, inventory := [⟨"A", 10, 1, .fresh⟩], pendingDeliveries := [] }

/-- Concrete catalog item for the reorder scenario. -/
def itemB : ItemSpec :=
  { sku := "B", name := "Bread", category := "bakery", unitCost := 1,
    basePrice := 2, shelfLifeDays := 10, leadTimeDays := 1, baseDailyDemand := 0,
    priceElasticity := 0, shrinkRate := 0, canFreeze := false,
    freezeCostPerUnit := 0, frozenShelfLifeDays := 0, frozenPriceMultiplier := 1 }

/-- Concrete policy entry with `orderUpTo` at or below the on-hand level while
the reorder point is above it. -/
def polItemB : ItemPolicy :=
  { sku := "B", reorderPoint := 10, orderUpTo := 5, pricing := [],
    donateDaysToExpireAtMost := 0, donateMaxFractionPerDay := 0,
    freezeDaysToExpireAtMost := 0, freezeMaxUnitsPerDay := 0 }

/-- Concrete policy covering only SKU `B`. -/
def policyB : InventoryPolicy :=
  { id := "p", name := "p",
    perSku := fun s => if s = "B" then some polItemB else none }

/-- Concrete starting state for the reorder scenario: five fresh units far
from expiry. -/
def stB : StoreState :=
  { day := 0, inventory := [⟨"B", 5, 10, .fresh⟩], pendingDeliveries := [] }

/-- Concrete state with one pending delivery three days out. -/
def stD : StoreState :=
  { day := 0, inventory := [], pendingDeliveries := [⟨"A", 5, 3⟩] }

/-- Concrete policy with no entries at all. -/
def policyNone : InventoryPolicy :=
  { id := "p", name := "p", perSku := fun _ => none }

/-- Concrete ledger for the FIFO take scenario: two fresh batches of `A`,
the first expiring sooner. -/
def lC9 : List InventoryBatch := [⟨"A", 2, 1, .fresh⟩, ⟨"A", 3, 5, .fresh⟩]

theorem jsFloor_eq (q : ℚ) : jsFloor q = ⌊q⌋ := by
  rw [jsFloor, Rat.floor_def', ← Rat.floor_def]

theorem sumOver_append (p : InventoryBatch → Bool) (l₁ l₂ : List InventoryBatch) :
    sumOver p (l₁ ++ l₂) = sumOver p l₁ + sumOver p l₂ := by
  induction l₁ with
  | nil => simp [sumOver]
  | cons b bs ih => simp [sumOver, ih]; ring

theorem sumOver_perm (p : InventoryBatch → Bool) {l₁ l₂ : List InventoryBatch}
    (h : l₁.Perm l₂) : sumOver p l₁ = sumOver p l₂ := by
  induction h with
  | nil => rfl
  | cons x _ ih => simp [sumOver, ih]
  | swap x y l => simp [sumOver]; ring
  | trans _ _ ih₁ ih₂ => exact ih₁.trans ih₂

theorem sumOver_congr {p q : InventoryBatch → Bool} (l : List InventoryBatch)
    (h : ∀ b ∈ l, p b = q b) : sumOver p l = sumOver q l := by
  induction l with
  | nil => rfl
  | cons b bs ih =>
    simp only [sumOver, h b (List.mem_cons_self b bs)]
    rw [ih fun x hx => h x (List.mem_cons_of_mem b hx)]

theorem sumOver_filter (p q : InventoryBatch → Bool) (l : List InventoryBatch) :
    sumOver p (l.filter q) = sumOver (fun b => p b && q b) l := by
  induction l with
  | nil => rfl
  | cons b bs ih =>
    by_cases hq : q b <;> simp [sumOver, List.filter_cons, hq, ih]

theorem sumOver_split (p q : InventoryBatch → Bool) (l : List InventoryBatch) :
    sumOver p l =
      sumOver (fun b => p b && q b) l + sumOver (fun b => p b && !(q b)) l := by
  induction l with
  | nil => simp [sumOver]
  | cons b bs ih =>
    simp only [sumOver, ih]
    by_cases hq : q b <;> by_cases hp : p b <;> simp [hp, hq] <;> ring

theorem sumOver_nonneg (p : InventoryBatch → Bool) (l : List InventoryBatch)
    (h : ∀ b ∈ l, p b = true → 0 ≤ b.qty) : 0 ≤ sumOver p l := by
  induction l with
  | nil => exact le_refl 0
  | cons b bs ih =>
    have ht := ih fun x hx => h x (List.mem_cons_of_mem b hx)
    by_cases hp : p b
    · have hb := h b (List.mem_cons_self b bs) hp
      simp only [sumOver, hp, if_true]
      positivity
    · simp [sumOver, hp, ht]

/-- Dropping batches of zero quantity does not change any quantity sum, as
long as no batch quantity is negative. -/
theorem sumOver_filter_pos (p : InventoryBatch → Bool) (l : List InventoryBatch)
    (h : ∀ b ∈ l, 0 ≤ b.qty) :
    sumOver p (l.filter fun b => decide (0 < b.qty)) = sumOver p l := by
  induction l with
  | nil => rfl
  | cons b bs ih =>
    have hb := h b (List.mem_cons_self b bs)
    have ih2 := ih fun x hx => h x (List.mem_cons_of_mem b hx)
    by_cases hpos : 0 < b.qty
    · simp [List.filter_cons, hpos, sumOver, ih2]
    · have hz : b.qty = 0 := le_antisymm (not_lt.mp hpos) hb
      by_cases hp : p b <;> simp [List.filter_cons, hpos, sumOver, ih2, hp, hz]

theorem sortFifo_perm (l : List InventoryBatch) : (sortFifo l).Perm l :=
  List.perm_insertionSort _ l

theorem sumOver_sortFifo (p : InventoryBatch → Bool) (l : List InventoryBatch) :
    sumOver p (sortFifo l) = sumOver p l :=
  sumOver_perm p (sortFifo_perm l)

theorem min_take_split (a s t : ℚ) (hs : 0 ≤ s) :
    min a t + min (t - min a t) s = min t (a + s) := by
  rcases le_total t a with hle | hle
  · rw [min_eq_right hle, sub_self, min_eq_left hs, add_zero,
      min_eq_left (by linarith)]
  · rw [min_eq_left hle]
    have : min t (a + s) = min (a + (t - a)) (a + s) := by ring_nf
    rw [this, min_add_add_left]

theorem takeGo_sumOver_key (k : Sku) (st : BState) (r : ℚ) (l : List InventoryBatch) :
    sumOver (keyB k st) (takeGo k st r l).2 =
      sumOver (keyB k st) l - (takeGo k st r l).1 := by
  induction l generalizing r with
  | nil => simp [takeGo, sumOver]
  | cons b bs ih =>
    by_cases hr : r ≤ 0
    · simp [takeGo, hr]
    · by_cases hc : (keyB k st b && decide (0 < b.qty)) = true
      · have hk : keyB k st b = true := ((Bool.and_eq_true _ _).mp hc).1
        have hk2 : keyB k st { b with qty := b.qty - min b.qty r } = true := by
          simpa [keyB] using hk
        simp only [takeGo, if_neg hr]
        rw [if_pos hc]
        simp only [sumOver, hk, hk2, if_true, ih]
        ring
      · simp only [takeGo, if_neg hr]
        rw [if_neg hc]
        simp only [sumOver, ih]
        ring

theorem takeGo_sumOver_frame (k : Sku) (st : BState) (p : InventoryBatch → Bool)
    (hp : ∀ b q, p { b with qty := q } = p b)
    (hdisj : ∀ b, keyB k st b = true → p b = false)
    (r : ℚ) (l : List InventoryBatch) :
    sumOver p (takeGo k st r l).2 = sumOver p l := by
  induction l generalizing r with
  | nil => simp [takeGo]
  | cons b bs ih =>
    by_cases hr : r ≤ 0
    · simp [takeGo, hr]
    · by_cases hc : (keyB k st b && decide (0 < b.qty)) = true
      · have hk : keyB k st b = true := ((Bool.and_eq_true _ _).mp hc).1
        have hpb : p b = false := hdisj b hk
        simp only [takeGo, if_neg hr]
        rw [if_pos hc]
        simp only [sumOver, hp, hpb, ih]
        simp
      · simp only [takeGo, if_neg hr]
        rw [if_neg hc]
        simp only [sumOver, ih]

theorem takeGo_nonneg (k : Sku) (st : BState) (r : ℚ) (l : List InventoryBatch)
    (h : ∀ b ∈ l, 0 ≤ b.qty) :
    ∀ b ∈ (takeGo k st r l).2, 0 ≤ b.qty := by
  induction l generalizing r with
  | nil => simp [takeGo]
  | cons b bs ih =>
    have hb := h b (List.mem_cons_self b bs)
    have htl := fun x hx => h x (List.mem_cons_of_mem b hx)
    by_cases hr : r ≤ 0
    · simpa [takeGo, hr] using h
    · by_cases hc : (keyB k st b && decide (0 < b.qty)) = true
      · simp only [takeGo, if_neg hr]
        rw [if_pos hc]
        intro x hx
        rcases List.mem_cons.mp hx with hx | hx
        · subst hx
          simp only
          have : min b.qty r ≤ b.qty := min_le_left _ _
          linarith
        · exact ih (r - min b.qty r) htl x hx
      · simp only [takeGo, if_neg hr]
        rw [if_neg hc]
        intro x hx
        rcases List.mem_cons.mp hx with hx | hx
        · subst hx; exact hb
        · exact ih r htl x hx

theorem takeGo_taken_min (k : Sku) (st : BState) (r : ℚ) (l : List InventoryBatch)
    (hpos : ∀ b ∈ l, keyB k st b = true → 0 < b.qty) (hr : 0 ≤ r) :
    (takeGo k st r l).1 = min r (sumOver (keyB k st) l) := by
  induction l generalizing r with
  | nil =>
    simp [takeGo, sumOver, min_eq_right hr]
  | cons b bs ih =>
    have hpos_tl := fun x hx => hpos x (List.mem_cons_of_mem b hx)
    have hS : 0 ≤ sumOver (keyB k st) bs :=
      sumOver_nonneg _ _ fun x hx hk => (hpos_tl x hx hk).le
    by_cases hr0 : r ≤ 0
    · have hr2 : r = 0 := le_antisymm hr0 hr
      subst hr2
      have hS2 : 0 ≤ sumOver (keyB k st) (b :: bs) :=
        sumOver_nonneg _ _ fun x hx hk => (hpos x hx hk).le
      simp [takeGo, min_eq_left hS2]
    · push_neg at hr0
      by_cases hk : keyB k st b = true
      · have hbq : 0 < b.qty := hpos b (List.mem_cons_self b bs) hk
        have hc : (keyB k st b && decide (0 < b.qty)) = true := by
          simp [hk, hbq]
        have hq0 : 0 ≤ r - min b.qty r := by
          have : min b.qty r ≤ r := min_le_right _ _
          linarith
        simp only [takeGo, if_neg (not_le.mpr hr0)]
        rw [if_pos hc]
        simp only [sumOver, hk, if_true]
        rw [ih _ hpos_tl hq0]
        exact min_take_split b.qty (sumOver (keyB k st) bs) r hS
      · have hkf : keyB k st b = false := by
          revert hk; cases keyB k st b <;> simp
        have hc : ¬((keyB k st b && decide (0 < b.qty)) = true) := by
          simp [hkf]
        simp only [takeGo, if_neg (not_le.mpr hr0)]
        rw [if_neg hc]
        simp only [sumOver, hkf, if_false]
        rw [ih r hpos_tl hr]
        simp

theorem takeGo_zero (k : Sku) (st : BState) (r : ℚ) (l : List InventoryBatch)
    (hr : r ≤ 0) : takeGo k st r l = (0, l) := by
  cases l with
  | nil => rfl
  | cons b bs => simp [takeGo, hr]

/-- Every batch of the ledger returned by the take loop descends from an input
batch: same sku, state and expiry, with a quantity that did not grow. -/
theorem takeGo_mem (k : Sku) (st : BState) (r : ℚ) (l : List InventoryBatch) :
    ∀ x ∈ (takeGo k st r l).2, ∃ y ∈ l, x.sku = y.sku ∧ x.state = y.state ∧
      x.daysToExpire = y.daysToExpire ∧ x.qty ≤ y.qty := by
  induction l generalizing r with
  | nil => simp [takeGo]
  | cons b bs ih =>
    by_cases hr : r ≤ 0
    · intro x hx
      rw [takeGo_zero k st r (b :: bs) hr] at hx
      exact ⟨x, hx, rfl, rfl, rfl, le_refl _⟩
    · by_cases hc : (keyB k st b && decide (0 < b.qty)) = true
      · have hq2 : (0:ℚ) < b.qty := of_decide_eq_true ((Bool.and_eq_true _ _).mp hc).2
        simp only [takeGo, if_neg hr]
        rw [if_pos hc]
        intro x hx
        rcases List.mem_cons.mp hx with hx | hx
        · subst hx
          refine ⟨b, List.mem_cons_self b bs, rfl, rfl, rfl, ?_⟩
          have h3 : 0 ≤ min b.qty r := le_min hq2.le (le_of_not_le hr)
          show b.qty - min b.qty r ≤ b.qty
          linarith
        · obtain ⟨y, hy, hs⟩ := ih (r - min b.qty r) x hx
          exact ⟨y, List.mem_cons_of_mem b hy, hs⟩
      · simp only [takeGo, if_neg hr]
        rw [if_neg hc]
        intro x hx
        rcases List.mem_cons.mp hx with hx | hx
        · refine ⟨b, List.mem_cons_self b bs, ?_, ?_, ?_, ?_⟩ <;> rw [hx]
        · obtain ⟨y, hy, hs⟩ := ih r x hx
          exact ⟨y, List.mem_cons_of_mem b hy, hs⟩

/-- FIFO core: on a ledger sorted by expiry, if the take loop leaves stock in
some batch of the pool expiring in `d` days, then every strictly
later-expiring part of the pool is untouched. -/
theorem takeGo_fifo (k : Sku) (st : BState) (r : ℚ) (l : List InventoryBatch)
    (hsort : l.Sorted (fun a b => a.daysToExpire ≤ b.daysToExpire))
    (d dd : ℚ) (hlt : d < dd)
    (hwit : ∃ x ∈ (takeGo k st r l).2,
      keyB k st x = true ∧ x.daysToExpire = d ∧ 0 < x.qty) :
    sumOver (dteKey k st dd) (takeGo k st r l).2 = sumOver (dteKey k st dd) l := by
  induction l generalizing r with
  | nil => simp [takeGo]
  | cons b bs ih =>
    obtain ⟨hhead, htail⟩ := List.sorted_cons.mp hsort
    by_cases hr : r ≤ 0
    · rw [takeGo_zero k st r _ hr]
    · by_cases hc : (keyB k st b && decide (0 < b.qty)) = true
      · have hq := min_le_left b.qty r
        simp only [takeGo, if_neg hr] at hwit ⊢
        rw [if_pos hc] at hwit ⊢
        obtain ⟨x, hx, hxk, hxd, hxq⟩ := hwit
        rcases List.mem_cons.mp hx with hx | hx
        · -- the witness is the (partially taken) head batch
          subst hx
          have hxd2 : b.daysToExpire = d := hxd
          have hxq2 : 0 < b.qty - min b.qty r := hxq
          have hql : min b.qty r < b.qty := by linarith
          have hqr : min b.qty r = r := by
            rcases min_cases b.qty r with ⟨h1, h2⟩ | ⟨h1, h2⟩
            · linarith
            · exact h1
          have hdd : b.daysToExpire ≠ dd := by
            rw [hxd2]; exact ne_of_lt hlt
          rw [hqr, sub_self, takeGo_zero k st 0 bs (le_refl 0)]
          have hbd : dteKey k st dd { b with qty := b.qty - r } = false := by
            simp [dteKey, hdd]
          have hbd2 : dteKey k st dd b = false := by
            simp [dteKey, hdd]
          simp only [sumOver, hbd, hbd2]
          simp
        · -- the witness survives in the tail
          obtain ⟨y, hy, hys, hyst, hyd, _⟩ :=
            takeGo_mem k st (r - min b.qty r) bs x hx
          have h1 : b.daysToExpire ≤ d := by
            calc b.daysToExpire ≤ y.daysToExpire := hhead y hy
            _ = x.daysToExpire := hyd.symm
            _ = d := hxd
          have hbne : b.daysToExpire ≠ dd := ne_of_lt (lt_of_le_of_lt h1 hlt)
          have ihr := ih (r - min b.qty r) htail ⟨x, hx, hxk, hxd, hxq⟩
          have hbd : dteKey k st dd { b with qty := b.qty - min b.qty r } = false := by
            simp [dteKey, hbne]
          have hbd2 : dteKey k st dd b = false := by
            simp [dteKey, hbne]
          simp only [sumOver, hbd, hbd2, ihr]
          simp
      · simp only [takeGo, if_neg hr] at hwit ⊢
        rw [if_neg hc] at hwit ⊢
        obtain ⟨x, hx, hxk, hxd, hxq⟩ := hwit
        rcases List.mem_cons.mp hx with hx | hx
        · subst hx
          exact absurd (by simp [hxk, hxq]) hc
        · have ihr := ih r htail ⟨x, hx, hxk, hxd, hxq⟩
          simp only [sumOver, ihr]

theorem sortFifo_sorted (l : List InventoryBatch) :
    (sortFifo l).Sorted (fun a b => a.daysToExpire ≤ b.daysToExpire) :=
  List.sorted_insertionSort _ l

theorem takeFromBatches_sumOver_key (l : List InventoryBatch) (k : Sku)
    (st : BState) (w : ℚ) (h : ∀ b ∈ l, 0 ≤ b.qty) :
    sumOver (keyB k st) (takeFromBatches l k st w).2 =
      sumOver (keyB k st) l - (takeFromBatches l k st w).1 := by
  unfold takeFromBatches
  by_cases hw : w ≤ 0
  · simp [hw]
  · simp only [if_neg hw]
    have hs : ∀ b ∈ sortFifo l, 0 ≤ b.qty :=
      fun b hb => h b ((sortFifo_perm l).mem_iff.mp hb)
    rw [sumOver_filter_pos _ _ (takeGo_nonneg k st w (sortFifo l) hs),
      takeGo_sumOver_key, sumOver_sortFifo]

theorem takeFromBatches_sumOver_frame (l : List InventoryBatch) (k : Sku)
    (st : BState) (w : ℚ) (p : InventoryBatch → Bool)
    (hp : ∀ b q, p { b with qty := q } = p b)
    (hdisj : ∀ b, keyB k st b = true → p b = false)
    (h : ∀ b ∈ l, 0 ≤ b.qty) :
    sumOver p (takeFromBatches l k st w).2 = sumOver p l := by
  unfold takeFromBatches
  by_cases hw : w ≤ 0
  · simp [hw]
  · simp only [if_neg hw]
    have hs : ∀ b ∈ sortFifo l, 0 ≤ b.qty :=
      fun b hb => h b ((sortFifo_perm l).mem_iff.mp hb)
    rw [sumOver_filter_pos _ _ (takeGo_nonneg k st w (sortFifo l) hs),
      takeGo_sumOver_frame k st p hp hdisj, sumOver_perm p (sortFifo_perm l)]

theorem takeFromBatches_nonneg (l : List InventoryBatch) (k : Sku) (st : BState)
    (w : ℚ) (h : ∀ b ∈ l, 0 ≤ b.qty) :
    ∀ b ∈ (takeFromBatches l k st w).2, 0 ≤ b.qty := by
  unfold takeFromBatches
  by_cases hw : w ≤ 0
  · simpa [hw] using h
  · simp only [if_neg hw]
    intro b hb
    have := (List.mem_filter.mp hb).2
    exact (of_decide_eq_true this).le

theorem takeFromBatches_pos (l : List InventoryBatch) (k : Sku) (st : BState)
    (w : ℚ) (h : ∀ b ∈ l, 0 < b.qty) :
    ∀ b ∈ (takeFromBatches l k st w).2, 0 < b.qty := by
  unfold takeFromBatches
  by_cases hw : w ≤ 0
  · simpa [hw] using h
  · simp only [if_neg hw]
    intro b hb
    exact of_decide_eq_true (List.mem_filter.mp hb).2

theorem takeFromBatches_taken (l : List InventoryBatch) (k : Sku) (st : BState)
    (w : ℚ) (hpos : ∀ b ∈ l, keyB k st b = true → 0 < b.qty) (hw : 0 ≤ w) :
    (takeFromBatches l k st w).1 = min w (sumQty l k st) := by
  unfold takeFromBatches
  by_cases hw0 : w ≤ 0
  · have hwz : w = 0 := le_antisymm hw0 hw
    subst hwz
    have : 0 ≤ sumQty l k st :=
      sumOver_nonneg _ _ fun x hx hk => (hpos x hx hk).le
    simp [min_eq_left this]
  · simp only [if_neg hw0]
    have hs : ∀ b ∈ sortFifo l, keyB k st b = true → 0 < b.qty :=
      fun b hb => hpos b ((sortFifo_perm l).mem_iff.mp hb)
    rw [takeGo_taken_min k st w (sortFifo l) hs hw]
    unfold sumQty
    rw [sumOver_sortFifo]

theorem freezeGo_zero (item : ItemSpec) (p : ItemPolicy) (cap : ℚ)
    (l : List InventoryBatch) (h : cap ≤ 0) : freezeGo item p cap l = (0, l, []) := by
  cases l with
  | nil => rfl
  | cons b bs => simp [freezeGo, h]

theorem freezeGo_fresh_key (item : ItemSpec) (p : ItemPolicy) (cap : ℚ)
    (l : List InventoryBatch) :
    sumOver (keyB item.sku .fresh) (freezeGo item p cap l).2.1 =
      sumOver (keyB item.sku .fresh) l - (freezeGo item p cap l).1 := by
  induction l generalizing cap with
  | nil => simp [freezeGo, sumOver]
  | cons b bs ih =>
    by_cases hcap : cap ≤ 0
    · rw [freezeGo_zero item p cap _ hcap]; simp
    · by_cases hc : (keyB item.sku .fresh b &&
          decide (b.daysToExpire ≤ p.freezeDaysToExpireAtMost) && decide (0 < b.qty)) = true
      · have hk : keyB item.sku .fresh b = true :=
          (((Bool.and_eq_true _ _).mp ((Bool.and_eq_true _ _).mp hc).1).1)
        have hk2 : keyB item.sku .fresh { b with qty := b.qty - min b.qty cap } = true := by
          simpa [keyB] using hk
        simp only [freezeGo, if_neg hcap]
        rw [if_pos hc]
        simp only [sumOver, hk, hk2, if_true, ih]
        ring
      · simp only [freezeGo, if_neg hcap]
        rw [if_neg hc]
        simp only [sumOver, ih]
        ring

theorem freezeGo_kept_frame (item : ItemSpec) (p : ItemPolicy)
    (pr : InventoryBatch → Bool)
    (hp : ∀ b q, pr { b with qty := q } = pr b)
    (hdisj : ∀ b, keyB item.sku .fresh b = true → pr b = false)
    (cap : ℚ) (l : List InventoryBatch) :
    sumOver pr (freezeGo item p cap l).2.1 = sumOver pr l := by
  induction l generalizing cap with
  | nil => simp [freezeGo]
  | cons b bs ih =>
    by_cases hcap : cap ≤ 0
    · rw [freezeGo_zero item p cap _ hcap]
    · by_cases hc : (keyB item.sku .fresh b &&
          decide (b.daysToExpire ≤ p.freezeDaysToExpireAtMost) && decide (0 < b.qty)) = true
      · have hk : keyB item.sku .fresh b = true :=
          (((Bool.and_eq_true _ _).mp ((Bool.and_eq_true _ _).mp hc).1).1)
        have hpb : pr b = false := hdisj b hk
        simp only [freezeGo, if_neg hcap]
        rw [if_pos hc]
        simp only [sumOver, hp, hpb, ih]
        simp
      · simp only [freezeGo, if_neg hcap]
        rw [if_neg hc]
        simp only [sumOver, ih]

theorem freezeGo_new_frozen (item : ItemSpec) (p : ItemPolicy) (cap : ℚ)
    (l : List InventoryBatch) :
    sumOver (keyB item.sku .frozen) (freezeGo item p cap l).2.2 =
      (freezeGo item p cap l).1 := by
  induction l generalizing cap with
  | nil => simp [freezeGo, sumOver]
  | cons b bs ih =>
    by_cases hcap : cap ≤ 0
    · rw [freezeGo_zero item p cap _ hcap]; simp [sumOver]
    · by_cases hc : (keyB item.sku .fresh b &&
          decide (b.daysToExpire ≤ p.freezeDaysToExpireAtMost) && decide (0 < b.qty)) = true
      · have hk : keyB item.sku .frozen
            (⟨item.sku, min b.qty cap,
              ((max 1 (jsRound item.frozenShelfLifeDays) : ℤ) : ℚ), .frozen⟩ :
              InventoryBatch) = true := by
          simp [keyB]
        simp only [freezeGo, if_neg hcap]
        rw [if_pos hc]
        simp only [sumOver, hk, if_true, ih]
      · simp only [freezeGo, if_neg hcap]
        rw [if_neg hc]
        simp only [ih]

theorem freezeGo_new_other (item : ItemSpec) (p : ItemPolicy)
    (pr : InventoryBatch → Bool)
    (hdisj : ∀ q d, pr (⟨item.sku, q, d, .frozen⟩ : InventoryBatch) = false)
    (cap : ℚ) (l : List InventoryBatch) :
    sumOver pr (freezeGo item p cap l).2.2 = 0 := by
  induction l generalizing cap with
  | nil => simp [freezeGo, sumOver]
  | cons b bs ih =>
    by_cases hcap : cap ≤ 0
    · rw [freezeGo_zero item p cap _ hcap]; simp [sumOver]
    · by_cases hc : (keyB item.sku .fresh b &&
          decide (b.daysToExpire ≤ p.freezeDaysToExpireAtMost) && decide (0 < b.qty)) = true
      · simp only [freezeGo, if_neg hcap]
        rw [if_pos hc]
        simp only [sumOver, hdisj, if_false, ih]
        simp
      · simp only [freezeGo, if_neg hcap]
        rw [if_neg hc]
        simp only [ih]

theorem freezeGo_nonneg (item : ItemSpec) (p : ItemPolicy) (cap : ℚ)
    (l : List InventoryBatch) (h : ∀ b ∈ l, 0 ≤ b.qty) :
    (∀ b ∈ (freezeGo item p cap l).2.1, 0 ≤ b.qty) ∧
      (∀ b ∈ (freezeGo item p cap l).2.2, 0 ≤ b.qty) := by
  induction l generalizing cap with
  | nil => simp [freezeGo]
  | cons b bs ih =>
    have hb := h b (List.mem_cons_self b bs)
    have htl := fun x hx => h x (List.mem_cons_of_mem b hx)
    by_cases hcap : cap ≤ 0
    · rw [freezeGo_zero item p cap _ hcap]
      exact ⟨h, by simp⟩
    · by_cases hc : (keyB item.sku .fresh b &&
          decide (b.daysToExpire ≤ p.freezeDaysToExpireAtMost) && decide (0 < b.qty)) = true
      · have hbq : 0 < b.qty :=
          of_decide_eq_true ((Bool.and_eq_true _ _).mp hc).2
        have hcap2 : 0 < cap := lt_of_not_le hcap
        obtain ⟨ih1, ih2⟩ := ih (cap - min b.qty cap) htl
        simp only [freezeGo, if_neg hcap]
        rw [if_pos hc]
        constructor
        · intro x hx
          rcases List.mem_cons.mp hx with hx | hx
          · subst hx
            show 0 ≤ b.qty - min b.qty cap
            have := min_le_left b.qty cap
            linarith
          · exact ih1 x hx
        · intro x hx
          rcases List.mem_cons.mp hx with hx | hx
          · subst hx
            show (0:ℚ) ≤ min b.qty cap
            exact le_min hbq.le hcap2.le
          · exact ih2 x hx
      · obtain ⟨ih1, ih2⟩ := ih cap htl
        simp only [freezeGo, if_neg hcap]
        rw [if_neg hc]
        exact ⟨fun x hx => (List.mem_cons.mp hx).elim (fun he => he ▸ hb) (ih1 x), ih2⟩

theorem freezeStage_nonneg (item : ItemSpec) (p : ItemPolicy)
    (inv : List InventoryBatch) (h : ∀ b ∈ inv, 0 ≤ b.qty) :
    ∀ b ∈ (freezeStage item p inv).2, 0 ≤ b.qty := by
  unfold freezeStage
  by_cases hc : (item.canFreeze && decide (0 < p.freezeMaxUnitsPerDay)) = true
  · rw [if_pos hc]
    intro b hb
    exact (of_decide_eq_true (List.mem_filter.mp hb).2).le
  · rw [if_neg hc]
    exact h

theorem freezeStage_fresh (item : ItemSpec) (p : ItemPolicy)
    (inv : List InventoryBatch) (h : ∀ b ∈ inv, 0 ≤ b.qty) :
    sumOver (keyB item.sku .fresh) (freezeStage item p inv).2 =
      sumOver (keyB item.sku .fresh) inv - (freezeStage item p inv).1 := by
  unfold freezeStage
  by_cases hc : (item.canFreeze && decide (0 < p.freezeMaxUnitsPerDay)) = true
  · rw [if_pos hc]
    have hs : ∀ b ∈ sortFifo inv, 0 ≤ b.qty :=
      fun b hb => h b ((sortFifo_perm inv).mem_iff.mp hb)
    obtain ⟨hn1, hn2⟩ := freezeGo_nonneg item p
      ((max 0 (jsFloor p.freezeMaxUnitsPerDay) : ℤ) : ℚ) (sortFifo inv) hs
    rw [sumOver_filter_pos _ _ (by
      intro b hb
      rcases List.mem_append.mp hb with hb | hb
      · exact hn1 b hb
      · exact hn2 b hb)]
    rw [sumOver_append, freezeGo_fresh_key,
      freezeGo_new_other item p _ (fun q d => by simp [keyB]) _ _,
      sumOver_sortFifo]
    ring
  · rw [if_neg hc]
    simp

theorem freezeStage_frozen (item : ItemSpec) (p : ItemPolicy)
    (inv : List InventoryBatch) (h : ∀ b ∈ inv, 0 ≤ b.qty) :
    sumOver (keyB item.sku .frozen) (freezeStage item p inv).2 =
      sumOver (keyB item.sku .frozen) inv + (freezeStage item p inv).1 := by
  unfold freezeStage
  by_cases hc : (item.canFreeze && decide (0 < p.freezeMaxUnitsPerDay)) = true
  · rw [if_pos hc]
    have hs : ∀ b ∈ sortFifo inv, 0 ≤ b.qty :=
      fun b hb => h b ((sortFifo_perm inv).mem_iff.mp hb)
    obtain ⟨hn1, hn2⟩ := freezeGo_nonneg item p
      ((max 0 (jsFloor p.freezeMaxUnitsPerDay) : ℤ) : ℚ) (sortFifo inv) hs
    rw [sumOver_filter_pos _ _ (by
      intro b hb
      rcases List.mem_append.mp hb with hb | hb
      · exact hn1 b hb
      · exact hn2 b hb)]
    rw [sumOver_append, freezeGo_new_frozen,
      freezeGo_kept_frame item p _ (fun b q => by simp [keyB])
        (fun b hb => by
          simp [keyB] at hb ⊢
          intro _
          cases hst : b.state <;> simp_all) _ _,
      sumOver_sortFifo]
  · rw [if_neg hc]
    simp

theorem freezeStage_frame (item : ItemSpec) (p : ItemPolicy)
    (inv : List InventoryBatch) (pr : InventoryBatch → Bool)
    (hp : ∀ b q, pr { b with qty := q } = pr b)
    (hdisj : ∀ b, b.sku = item.sku → pr b = false)
    (h : ∀ b ∈ inv, 0 ≤ b.qty) :
    sumOver pr (freezeStage item p inv).2 = sumOver pr inv := by
  unfold freezeStage
  by_cases hc : (item.canFreeze && decide (0 < p.freezeMaxUnitsPerDay)) = true
  · rw [if_pos hc]
    have hs : ∀ b ∈ sortFifo inv, 0 ≤ b.qty :=
      fun b hb => h b ((sortFifo_perm inv).mem_iff.mp hb)
    obtain ⟨hn1, hn2⟩ := freezeGo_nonneg item p
      ((max 0 (jsFloor p.freezeMaxUnitsPerDay) : ℤ) : ℚ) (sortFifo inv) hs
    rw [sumOver_filter_pos _ _ (by
      intro b hb
      rcases List.mem_append.mp hb with hb | hb
      · exact hn1 b hb
      · exact hn2 b hb)]
    rw [sumOver_append,
      freezeGo_kept_frame item p _ hp
        (fun b hb => hdisj b (by
          simp [keyB] at hb
          exact hb.1)) _ _,
      freezeGo_new_other item p _ (fun q d => hdisj _ rfl) _ _,
      sumOver_perm pr (sortFifo_perm inv)]
    ring
  · rw [if_neg hc]

theorem keyB_set_qty (k : Sku) (st : BState) (b : InventoryBatch) (q : ℚ) :
    keyB k st { b with qty := q } = keyB k st b := rfl

theorem keyB_eq_true_iff (k : Sku) (st : BState) (b : InventoryBatch) :
    keyB k st b = true ↔ b.sku = k ∧ b.state = st := by
  simp [keyB]

theorem keyB_disjoint {k k' : Sku} {st st' : BState} (h : k' ≠ k ∨ st' ≠ st) :
    ∀ b, keyB k st b = true → keyB k' st' b = false := by
  intro b hb
  obtain ⟨h1, h2⟩ := (keyB_eq_true_iff k st b).mp hb
  have hnot : ¬(b.sku = k' ∧ b.state = st') := by
    rintro ⟨e1, e2⟩
    rcases h with h | h
    · exact h (e1.symm.trans h1)
    · exact h (e2.symm.trans h2)
  simpa [keyB, not_and] using hnot

theorem donateStage_nonneg (item : ItemSpec) (p : ItemPolicy)
    (inv : List InventoryBatch) (h : ∀ b ∈ inv, 0 ≤ b.qty) :
    ∀ b ∈ (donateStage item p inv).2, 0 ≤ b.qty := by
  unfold donateStage
  by_cases hc : 0 < p.donateMaxFractionPerDay
  · rw [if_pos hc]
    exact takeFromBatches_nonneg _ _ _ _
      fun b hb => h b ((sortFifo_perm inv).mem_iff.mp hb)
  · rw [if_neg hc]
    exact h

theorem donateStage_fresh (item : ItemSpec) (p : ItemPolicy)
    (inv : List InventoryBatch) (h : ∀ b ∈ inv, 0 ≤ b.qty) :
    sumOver (keyB item.sku .fresh) (donateStage item p inv).2 =
      sumOver (keyB item.sku .fresh) inv - (donateStage item p inv).1 := by
  unfold donateStage
  by_cases hc : 0 < p.donateMaxFractionPerDay
  · rw [if_pos hc]
    rw [takeFromBatches_sumOver_key _ _ _ _
      (fun b hb => h b ((sortFifo_perm inv).mem_iff.mp hb)), sumOver_sortFifo]
  · rw [if_neg hc]
    simp

theorem donateStage_frame (item : ItemSpec) (p : ItemPolicy)
    (inv : List InventoryBatch) (pr : InventoryBatch → Bool)
    (hp : ∀ b q, pr { b with qty := q } = pr b)
    (hdisj : ∀ b, keyB item.sku .fresh b = true → pr b = false)
    (h : ∀ b ∈ inv, 0 ≤ b.qty) :
    sumOver pr (donateStage item p inv).2 = sumOver pr inv := by
  unfold donateStage
  by_cases hc : 0 < p.donateMaxFractionPerDay
  · rw [if_pos hc]
    rw [takeFromBatches_sumOver_frame _ _ _ _ pr hp hdisj
      (fun b hb => h b ((sortFifo_perm inv).mem_iff.mp hb)),
      sumOver_perm pr (sortFifo_perm inv)]
  · rw [if_neg hc]

theorem sellStage_nonneg (item : ItemSpec) (d : ℚ) (inv : List InventoryBatch)
    (h : ∀ b ∈ inv, 0 ≤ b.qty) :
    ∀ b ∈ (sellStage item d inv).2.2, 0 ≤ b.qty := by
  unfold sellStage
  by_cases hr : 0 < max 0 (d - (takeFromBatches inv item.sku .fresh d).1)
  · simp only [if_pos hr]
    exact takeFromBatches_nonneg _ _ _ _ (takeFromBatches_nonneg _ _ _ _ h)
  · simp only [if_neg hr]
    exact takeFromBatches_nonneg _ _ _ _ h

theorem sellStage_fresh (item : ItemSpec) (d : ℚ) (inv : List InventoryBatch)
    (h : ∀ b ∈ inv, 0 ≤ b.qty) :
    sumOver (keyB item.sku .fresh) (sellStage item d inv).2.2 =
      sumOver (keyB item.sku .fresh) inv - (sellStage item d inv).1 := by
  unfold sellStage
  by_cases hr : 0 < max 0 (d - (takeFromBatches inv item.sku .fresh d).1)
  · simp only [if_pos hr]
    rw [takeFromBatches_sumOver_frame _ _ _ _ _ (keyB_set_qty item.sku .fresh)
      (keyB_disjoint (Or.inr (by simp))) (takeFromBatches_nonneg _ _ _ _ h),
      takeFromBatches_sumOver_key _ _ _ _ h]
  · simp only [if_neg hr]
    rw [takeFromBatches_sumOver_key _ _ _ _ h]

theorem sellStage_frozen (item : ItemSpec) (d : ℚ) (inv : List InventoryBatch)
    (h : ∀ b ∈ inv, 0 ≤ b.qty) :
    sumOver (keyB item.sku .frozen) (sellStage item d inv).2.2 =
      sumOver (keyB item.sku .frozen) inv - (sellStage item d inv).2.1 := by
  unfold sellStage
  by_cases hr : 0 < max 0 (d - (takeFromBatches inv item.sku .fresh d).1)
  · simp only [if_pos hr]
    rw [takeFromBatches_sumOver_key _ _ _ _ (takeFromBatches_nonneg _ _ _ _ h),
      takeFromBatches_sumOver_frame _ _ _ _ _ (keyB_set_qty item.sku .frozen)
        (keyB_disjoint (Or.inr (by simp))) h]
  · simp only [if_neg hr]
    rw [takeFromBatches_sumOver_frame _ _ _ _ _ (keyB_set_qty item.sku .frozen)
      (keyB_disjoint (Or.inr (by simp))) h]
    simp

theorem sellStage_frame (item : ItemSpec) (d : ℚ) (inv : List InventoryBatch)
    (pr : InventoryBatch → Bool)
    (hp : ∀ b q, pr { b with qty := q } = pr b)
    (hdisj : ∀ b, b.sku = item.sku → pr b = false)
    (h : ∀ b ∈ inv, 0 ≤ b.qty) :
    sumOver pr (sellStage item d inv).2.2 = sumOver pr inv := by
  unfold sellStage
  have hd1 : ∀ b, keyB item.sku BState.fresh b = true → pr b = false :=
    fun b hb => hdisj b ((keyB_eq_true_iff _ _ b).mp hb).1
  have hd2 : ∀ b, keyB item.sku BState.frozen b = true → pr b = false :=
    fun b hb => hdisj b ((keyB_eq_true_iff _ _ b).mp hb).1
  by_cases hr : 0 < max 0 (d - (takeFromBatches inv item.sku .fresh d).1)
  · simp only [if_pos hr]
    rw [takeFromBatches_sumOver_frame _ _ _ _ pr hp hd2
      (takeFromBatches_nonneg _ _ _ _ h),
      takeFromBatches_sumOver_frame _ _ _ _ pr hp hd1 h]
  · simp only [if_neg hr]
    rw [takeFromBatches_sumOver_frame _ _ _ _ pr hp hd1 h]

theorem shrinkTake_nonneg (item : ItemSpec) (L : ℚ) (inv : List InventoryBatch)
    (h : ∀ b ∈ inv, 0 ≤ b.qty) :
    ∀ b ∈ (shrinkTake item L inv).inv, 0 ≤ b.qty := by
  simp only [shrinkTake]
  by_cases hc : 0 < L
  · rw [if_pos hc]
    by_cases hz : 0 < L - (takeFromBatches inv item.sku .fresh L).1
    · simp only [if_pos hz]
      exact takeFromBatches_nonneg _ _ _ _ (takeFromBatches_nonneg _ _ _ _ h)
    · simp only [if_neg hz]
      exact takeFromBatches_nonneg _ _ _ _ h
  · rw [if_neg hc]
    exact h

theorem shrinkTake_fresh (item : ItemSpec) (L : ℚ) (inv : List InventoryBatch)
    (h : ∀ b ∈ inv, 0 ≤ b.qty) :
    sumOver (keyB item.sku .fresh) (shrinkTake item L inv).inv =
      sumOver (keyB item.sku .fresh) inv - (shrinkTake item L inv).fresh := by
  simp only [shrinkTake]
  by_cases hc : 0 < L
  · rw [if_pos hc]
    by_cases hz : 0 < L - (takeFromBatches inv item.sku .fresh L).1
    · simp only [if_pos hz]
      rw [takeFromBatches_sumOver_frame _ _ _ _ _ (keyB_set_qty item.sku .fresh)
        (keyB_disjoint (Or.inr (by simp))) (takeFromBatches_nonneg _ _ _ _ h),
        takeFromBatches_sumOver_key _ _ _ _ h]
    · simp only [if_neg hz]
      rw [takeFromBatches_sumOver_key _ _ _ _ h]
  · rw [if_neg hc]
    simp

theorem shrinkTake_frozen (item : ItemSpec) (L : ℚ) (inv : List InventoryBatch)
    (h : ∀ b ∈ inv, 0 ≤ b.qty) :
    sumOver (keyB item.sku .frozen) (shrinkTake item L inv).inv =
      sumOver (keyB item.sku .frozen) inv - (shrinkTake item L inv).frozen := by
  simp only [shrinkTake]
  by_cases hc : 0 < L
  · rw [if_pos hc]
    by_cases hz : 0 < L - (takeFromBatches inv item.sku .fresh L).1
    · simp only [if_pos hz]
      rw [takeFromBatches_sumOver_key _ _ _ _ (takeFromBatches_nonneg _ _ _ _ h),
        takeFromBatches_sumOver_frame _ _ _ _ _ (keyB_set_qty item.sku .frozen)
          (keyB_disjoint (Or.inr (by simp))) h]
    · simp only [if_neg hz]
      rw [takeFromBatches_sumOver_frame _ _ _ _ _ (keyB_set_qty item.sku .frozen)
        (keyB_disjoint (Or.inr (by simp))) h]
      simp
  · rw [if_neg hc]
    simp

theorem shrinkTake_frame (item : ItemSpec) (L : ℚ) (inv : List InventoryBatch)
    (pr : InventoryBatch → Bool)
    (hp : ∀ b q, pr { b with qty := q } = pr b)
    (hdisj : ∀ b, b.sku = item.sku → pr b = false)
    (h : ∀ b ∈ inv, 0 ≤ b.qty) :
    sumOver pr (shrinkTake item L inv).inv = sumOver pr inv := by
  simp only [shrinkTake]
  have hd1 : ∀ b, keyB item.sku BState.fresh b = true → pr b = false :=
    fun b hb => hdisj b ((keyB_eq_true_iff _ _ b).mp hb).1
  have hd2 : ∀ b, keyB item.sku BState.frozen b = true → pr b = false :=
    fun b hb => hdisj b ((keyB_eq_true_iff _ _ b).mp hb).1
  by_cases hc : 0 < L
  · rw [if_pos hc]
    by_cases hz : 0 < L - (takeFromBatches inv item.sku .fresh L).1
    · simp only [if_pos hz]
      rw [takeFromBatches_sumOver_frame _ _ _ _ pr hp hd2
        (takeFromBatches_nonneg _ _ _ _ h),
        takeFromBatches_sumOver_frame _ _ _ _ pr hp hd1 h]
    · simp only [if_neg hz]
      rw [takeFromBatches_sumOver_frame _ _ _ _ pr hp hd1 h]
  · rw [if_neg hc]

theorem ageF_qty (k : Sku) (b : InventoryBatch) : (ageF k b).qty = b.qty := by
  unfold ageF
  split <;> rfl

theorem ageF_sku (k : Sku) (b : InventoryBatch) : (ageF k b).sku = b.sku := by
  unfold ageF
  split <;> rfl

theorem sumOver_map_ageF (pr : InventoryBatch → Bool) (k : Sku)
    (l : List InventoryBatch) (hpr : ∀ b, pr (ageF k b) = pr b) :
    sumOver pr (l.map (ageF k)) = sumOver pr l := by
  induction l with
  | nil => rfl
  | cons b bs ih =>
    simp only [List.map_cons, sumOver, hpr b, ageF_qty, ih]

theorem keyB_ageF (kk : Sku) (st : BState) (k : Sku) (b : InventoryBatch) :
    keyB kk st (ageF k b) = keyB kk st b := by
  unfold ageF keyB
  split <;> rfl

theorem sumOver_filter_sub (p q : InventoryBatch → Bool) (l : List InventoryBatch) :
    sumOver p (l.filter q) =
      sumOver p l - sumOver (fun b => p b && !(q b)) l := by
  rw [sumOver_filter]
  have h := sumOver_split p q l
  linarith

theorem ageStage_fresh (k : Sku) (inv : List InventoryBatch) :
    sumOver (keyB k .fresh) (ageStage k inv).inv =
      sumOver (keyB k .fresh) inv - (ageStage k inv).wastedFresh := by
  simp only [ageStage]
  rw [sumOver_filter_sub]
  rw [sumOver_map_ageF _ k inv (keyB_ageF k .fresh k)]
  have hcongr : sumOver (fun b => keyB k .fresh b &&
      !((fun b => !((b.sku == k) && decide (b.daysToExpire ≤ 0))) b))
      (inv.map (ageF k)) =
      sumOver (fun b => keyB k .fresh b && decide (b.daysToExpire ≤ 0))
        (inv.map (ageF k)) := by
    apply sumOver_congr
    rintro ⟨bs, bq, bd, bst⟩ _
    cases bst <;> cases hsku : (bs == k) <;> cases hd : (decide (bd ≤ 0)) <;>
      simp [keyB, hsku, hd]
  rw [hcongr]

theorem ageStage_frozen (k : Sku) (inv : List InventoryBatch) :
    sumOver (keyB k .frozen) (ageStage k inv).inv =
      sumOver (keyB k .frozen) inv - (ageStage k inv).wastedFrozen := by
  simp only [ageStage]
  rw [sumOver_filter_sub]
  rw [sumOver_map_ageF _ k inv (keyB_ageF k .frozen k)]
  have hcongr : sumOver (fun b => keyB k .frozen b &&
      !((fun b => !((b.sku == k) && decide (b.daysToExpire ≤ 0))) b))
      (inv.map (ageF k)) =
      sumOver (fun b => keyB k .frozen b && decide (b.daysToExpire ≤ 0))
        (inv.map (ageF k)) := by
    apply sumOver_congr
    rintro ⟨bs, bq, bd, bst⟩ _
    cases bst <;> cases hsku : (bs == k) <;> cases hd : (decide (bd ≤ 0)) <;>
      simp [keyB, hsku, hd]
  rw [hcongr]

theorem ageStage_wasted_split (k : Sku) (inv : List InventoryBatch) :
    (ageStage k inv).wasted =
      (ageStage k inv).wastedFresh + (ageStage k inv).wastedFrozen := by
  simp only [ageStage]
  rw [sumOver_split (fun b => (b.sku == k) && decide (b.daysToExpire ≤ 0))
    (fun b => b.state == BState.fresh) (inv.map (ageF k))]
  congr 1
  · apply sumOver_congr
    rintro ⟨bs, bq, bd, bst⟩ _
    cases bst <;> cases hsku : (bs == k) <;> cases hd : (decide (bd ≤ 0)) <;>
      simp [keyB, hsku, hd]
  · apply sumOver_congr
    rintro ⟨bs, bq, bd, bst⟩ _
    cases bst <;> cases hsku : (bs == k) <;> cases hd : (decide (bd ≤ 0)) <;>
      simp [keyB, hsku, hd]

theorem ageStage_frame (k : Sku) (inv : List InventoryBatch)
    (pr : InventoryBatch → Bool)
    (hdisj : ∀ b, b.sku = k → pr b = false) :
    sumOver pr (ageStage k inv).inv = sumOver pr inv := by
  simp only [ageStage]
  rw [sumOver_filter_sub]
  have h2 : sumOver (fun b => pr b &&
      !((fun b => !((b.sku == k) && decide (b.daysToExpire ≤ 0))) b))
      (inv.map (ageF k)) = 0 := by
    induction inv with
    | nil => rfl
    | cons b bs ih =>
      simp only [List.map_cons, sumOver, ih]
      by_cases hsk : b.sku = k
      · have := hdisj (ageF k b) (by rw [ageF_sku]; exact hsk)
        simp [this]
      · have hskb : ((ageF k b).sku == k) = false := by
          rw [ageF_sku]; simpa using hsk
        simp [hskb]
  rw [h2]
  have h3 : sumOver pr (inv.map (ageF k)) = sumOver pr inv := by
    apply sumOver_map_ageF
    intro b
    by_cases hsk : b.sku = k
    · rw [hdisj _ hsk, hdisj _ (by rw [ageF_sku]; exact hsk)]
    · unfold ageF
      rw [if_neg (by simpa using hsk)]
  rw [h3]
  ring

theorem ageStage_nonneg (k : Sku) (inv : List InventoryBatch)
    (h : ∀ b ∈ inv, 0 ≤ b.qty) :
    ∀ b ∈ (ageStage k inv).inv, 0 ≤ b.qty := by
  simp only [ageStage]
  intro b hb
  obtain ⟨a, ha, hab⟩ := List.mem_map.mp (List.mem_of_mem_filter hb)
  rw [← hab, ageF_qty]
  exact h a ha

theorem processSku_fresh (oracle : FloatOracle) (cfg : SimulationConfig)
    (item : ItemSpec) (p : ItemPolicy) (inv0 : List InventoryBatch)
    (pending0 : List PendingDelivery) (noiseIdx : ℕ)
    (h0 : ∀ b ∈ inv0, 0 ≤ b.qty) :
    sumOver (keyB item.sku .fresh) inv0 =
      (processSku oracle cfg item p inv0 pending0 noiseIdx).metrics.frozenMoved +
      (processSku oracle cfg item p inv0 pending0 noiseIdx).metrics.donated +
      (processSku oracle cfg item p inv0 pending0 noiseIdx).metrics.soldFresh +
      (processSku oracle cfg item p inv0 pending0 noiseIdx).shrinkFresh +
      (processSku oracle cfg item p inv0 pending0 noiseIdx).wastedFresh +
      sumOver (keyB item.sku .fresh)
        (processSku oracle cfg item p inv0 pending0 noiseIdx).inv := by
  simp only [processSku, shrinkStage]
  rw [ageStage_fresh,
    shrinkTake_fresh item _ _
      (sellStage_nonneg item _ _
        (donateStage_nonneg item p _ (freezeStage_nonneg item p inv0 h0))),
    sellStage_fresh item _ _
      (donateStage_nonneg item p _ (freezeStage_nonneg item p inv0 h0)),
    donateStage_fresh item p _ (freezeStage_nonneg item p inv0 h0),
    freezeStage_fresh item p inv0 h0]
  ring

theorem processSku_frozen (oracle : FloatOracle) (cfg : SimulationConfig)
    (item : ItemSpec) (p : ItemPolicy) (inv0 : List InventoryBatch)
    (pending0 : List PendingDelivery) (noiseIdx : ℕ)
    (h0 : ∀ b ∈ inv0, 0 ≤ b.qty) :
    sumOver (keyB item.sku .frozen) inv0 +
      (processSku oracle cfg item p inv0 pending0 noiseIdx).metrics.frozenMoved =
      (processSku oracle cfg item p inv0 pending0 noiseIdx).metrics.soldFrozen +
      (processSku oracle cfg item p inv0 pending0 noiseIdx).shrinkFrozen +
      (processSku oracle cfg item p inv0 pending0 noiseIdx).wastedFrozen +
      sumOver (keyB item.sku .frozen)
        (processSku oracle cfg item p inv0 pending0 noiseIdx).inv := by
  simp only [processSku, shrinkStage]
  rw [ageStage_frozen,
    shrinkTake_frozen item _ _
      (sellStage_nonneg item _ _
        (donateStage_nonneg item p _ (freezeStage_nonneg item p inv0 h0))),
    sellStage_frozen item _ _
      (donateStage_nonneg item p _ (freezeStage_nonneg item p inv0 h0)),
    donateStage_frame item p _ _ (keyB_set_qty item.sku .frozen)
      (keyB_disjoint (Or.inr (by simp)))
      (freezeStage_nonneg item p inv0 h0),
    freezeStage_frozen item p inv0 h0]
  ring

theorem processSku_frame (oracle : FloatOracle) (cfg : SimulationConfig)
    (item : ItemSpec) (p : ItemPolicy) (inv0 : List InventoryBatch)
    (pending0 : List PendingDelivery) (noiseIdx : ℕ)
    (pr : InventoryBatch → Bool)
    (hp : ∀ b q, pr { b with qty := q } = pr b)
    (hdisj : ∀ b, b.sku = item.sku → pr b = false)
    (h0 : ∀ b ∈ inv0, 0 ≤ b.qty) :
    sumOver pr (processSku oracle cfg item p inv0 pending0 noiseIdx).inv =
      sumOver pr inv0 := by
  simp only [processSku, shrinkStage]
  rw [ageStage_frame _ _ pr hdisj,
    shrinkTake_frame item _ _ pr hp hdisj
      (sellStage_nonneg item _ _
        (donateStage_nonneg item p _ (freezeStage_nonneg item p inv0 h0))),
    sellStage_frame item _ _ pr hp hdisj
      (donateStage_nonneg item p _ (freezeStage_nonneg item p inv0 h0)),
    donateStage_frame item p _ pr hp
      (fun b hb => hdisj b ((keyB_eq_true_iff _ _ b).mp hb).1)
      (freezeStage_nonneg item p inv0 h0),
    freezeStage_frame item p inv0 pr hp hdisj h0]

theorem processSku_nonneg (oracle : FloatOracle) (cfg : SimulationConfig)
    (item : ItemSpec) (p : ItemPolicy) (inv0 : List InventoryBatch)
    (pending0 : List PendingDelivery) (noiseIdx : ℕ)
    (h0 : ∀ b ∈ inv0, 0 ≤ b.qty) :
    ∀ b ∈ (processSku oracle cfg item p inv0 pending0 noiseIdx).inv, 0 ≤ b.qty := by
  simp only [processSku, shrinkStage]
  exact ageStage_nonneg _ _
    (shrinkTake_nonneg _ _ _
      (sellStage_nonneg _ _ _
        (donateStage_nonneg _ _ _ (freezeStage_nonneg _ _ _ h0))))

theorem processSku_holding (oracle : FloatOracle) (cfg : SimulationConfig)
    (item : ItemSpec) (p : ItemPolicy) (inv0 : List InventoryBatch)
    (pending0 : List PendingDelivery) (noiseIdx : ℕ) :
    (processSku oracle cfg item p inv0 pending0 noiseIdx).metrics.holdingCost =
      (sumOver (keyB item.sku .fresh)
          (processSku oracle cfg item p inv0 pending0 noiseIdx).inv +
        sumOver (keyB item.sku .frozen)
          (processSku oracle cfg item p inv0 pending0 noiseIdx).inv +
        (processSku oracle cfg item p inv0 pending0 noiseIdx).metrics.wasted) *
        cfg.holdingCostPerUnitPerDay := by
  simp only [processSku, shrinkStage]
  rw [ageStage_fresh, ageStage_frozen, ageStage_wasted_split]
  unfold sumQty
  ring

theorem processSku_pending (oracle : FloatOracle) (cfg : SimulationConfig)
    (item : ItemSpec) (p : ItemPolicy) (inv0 : List InventoryBatch)
    (pending0 : List PendingDelivery) (noiseIdx : ℕ) :
    (processSku oracle cfg item p inv0 pending0 noiseIdx).pending =
      reorderStage item p
        (processSku oracle cfg item p inv0 pending0 noiseIdx).inv pending0 := rfl

theorem sumOver_eq_zero (p : InventoryBatch → Bool) (l : List InventoryBatch)
    (h : ∀ b ∈ l, p b = false) : sumOver p l = 0 := by
  induction l with
  | nil => rfl
  | cons b bs ih =>
    simp only [sumOver, h b (List.mem_cons_self b bs),
      ih fun x hx => h x (List.mem_cons_of_mem b hx)]
    simp

theorem newBatches_mem (items : List ItemSpec) (pend : List PendingDelivery) :
    ∀ b ∈ newBatches items pend, b.state = .fresh ∧ 0 ≤ b.qty := by
  intro b hb
  obtain ⟨a, _, ha2⟩ := List.mem_filterMap.mp hb
  obtain ⟨item, _, hi2⟩ := Option.map_eq_some'.mp ha2
  rw [← hi2]
  refine ⟨rfl, ?_⟩
  show (0:ℚ) ≤ ((max 0 (jsRound a.qty) : ℤ) : ℚ)
  have : (0:ℤ) ≤ max 0 (jsRound a.qty) := le_max_left _ _
  exact_mod_cast this

theorem newBatches_fresh_sum (items : List ItemSpec) (pend : List PendingDelivery)
    (k : Sku) (hk : ∃ it ∈ items, it.sku = k) :
    sumOver (keyB k .fresh) (newBatches items pend) =
      pendSum (fun d => d.sku == k && decide (d.arrivingInDays ≤ 1)) pend := by
  induction pend with
  | nil => rfl
  | cons d ds ih =>
    simp only [newBatches, List.map_cons, List.filter_cons] at ih ⊢
    simp only [Int.cast_max, Int.cast_zero, Int.cast_one] at ih
    by_cases harr : ({ d with arrivingInDays := d.arrivingInDays - 1 }
        : PendingDelivery).arrivingInDays ≤ 0
    · have harr2 : d.arrivingInDays ≤ 1 := by
        have : d.arrivingInDays - 1 ≤ 0 := harr
        linarith
      rw [if_pos (by simpa using harr)]
      simp only [List.filterMap_cons]
      by_cases hsku : d.sku = k
      · have hfind : (items.find? fun it => it.sku == d.sku).isSome := by
          rw [List.find?_isSome]
          obtain ⟨it, hit, hsk⟩ := hk
          exact ⟨it, hit, by simp [hsk, hsku]⟩
        obtain ⟨item, hitem⟩ := Option.isSome_iff_exists.mp hfind
        rw [hitem]
        simp only [Option.map_some']
        simp only [sumOver, pendSum]
        have hkey : ∀ q dd : ℚ, keyB k BState.fresh
            (⟨d.sku, q, dd, .fresh⟩ : InventoryBatch) = true := by
          intro q dd
          simp [keyB, hsku]
        have hcond : (d.sku == k && decide (d.arrivingInDays ≤ 1)) = true := by
          simp [hsku, harr2]
        simp [hkey, hcond, ih]
      · have hcond : (d.sku == k && decide (d.arrivingInDays ≤ 1)) = false := by
          simp [hsku]
        cases hfind : items.find? fun it => it.sku == d.sku with
        | none =>
          simp only [Option.map_none']
          simp [pendSum, hcond, ih]
        | some item =>
          simp only [Option.map_some']
          have hkey : ∀ q dd : ℚ, keyB k BState.fresh
              (⟨d.sku, q, dd, .fresh⟩ : InventoryBatch) = false := by
            intro q dd
            simp [keyB]
            intro h
            exact absurd h hsku
          simp [sumOver, pendSum, hcond, hkey, ih]
    · rw [if_neg (by simpa using harr)]
      have harr2 : ¬ d.arrivingInDays ≤ 1 := by
        have : ¬ d.arrivingInDays - 1 ≤ 0 := harr
        intro hcon
        exact this (by linarith)
      have hcond : (d.sku == k && decide (d.arrivingInDays ≤ 1)) = false := by
        simp [harr2]
      simp [pendSum, hcond, ih]

theorem receiveStep_fresh (items : List ItemSpec) (st : StoreState) (k : Sku)
    (hk : ∃ it ∈ items, it.sku = k) :
    sumOver (keyB k .fresh) (receiveStep items st).inventory =
      sumOver (keyB k .fresh) st.inventory +
        pendSum (fun d => d.sku == k && decide (d.arrivingInDays ≤ 1))
          st.pendingDeliveries := by
  simp only [receiveStep]
  rw [sumOver_append, newBatches_fresh_sum items st.pendingDeliveries k hk]

theorem keyB_sku_ne (k : Sku) (stt : BState) (b : InventoryBatch) (k2 : Sku)
    (hb : b.sku = k2) (hne : k2 ≠ k) : keyB k stt b = false := by
  have hf : (b.sku == k) = false := by
    rw [hb]
    simpa using hne
  simp [keyB, hf]

theorem receiveStep_frozen (items : List ItemSpec) (st : StoreState) (k : Sku) :
    sumOver (keyB k .frozen) (receiveStep items st).inventory =
      sumOver (keyB k .frozen) st.inventory := by
  simp only [receiveStep]
  rw [sumOver_append, sumOver_eq_zero _ (newBatches items st.pendingDeliveries) (by
    intro b hb
    have := (newBatches_mem items st.pendingDeliveries b hb).1
    simp [keyB, this])]
  simp

theorem receiveStep_nonneg (items : List ItemSpec) (st : StoreState)
    (h : ∀ b ∈ st.inventory, 0 ≤ b.qty) :
    ∀ b ∈ (receiveStep items st).inventory, 0 ≤ b.qty := by
  simp only [receiveStep]
  intro b hb
  rcases List.mem_append.mp hb with hb | hb
  · exact h b hb
  · exact (newBatches_mem items st.pendingDeliveries b hb).2

theorem processItems_nonneg (oracle : FloatOracle) (cfg : SimulationConfig)
    (policy : InventoryPolicy) (items : List ItemSpec)
    (inv : List InventoryBatch) (pend : List PendingDelivery) (n : ℕ)
    (h : ∀ b ∈ inv, 0 ≤ b.qty) :
    ∀ b ∈ (processItems oracle cfg policy items inv pend n).2.1, 0 ≤ b.qty := by
  induction items generalizing inv pend n with
  | nil => simpa [processItems] using h
  | cons item rest ih =>
    cases hp : policy.perSku item.sku with
    | none =>
      simp only [processItems, hp]
      exact ih inv pend n h
    | some p =>
      simp only [processItems, hp]
      exact ih _ _ _ (processSku_nonneg oracle cfg item p inv pend n h)

theorem processItems_frame (oracle : FloatOracle) (cfg : SimulationConfig)
    (policy : InventoryPolicy) (items : List ItemSpec)
    (inv : List InventoryBatch) (pend : List PendingDelivery) (n : ℕ)
    (k : Sku) (stt : BState)
    (hout : ∀ it ∈ items, it.sku ≠ k)
    (h : ∀ b ∈ inv, 0 ≤ b.qty) :
    sumOver (keyB k stt) (processItems oracle cfg policy items inv pend n).2.1 =
      sumOver (keyB k stt) inv := by
  induction items generalizing inv pend n with
  | nil => simp [processItems]
  | cons item rest ih =>
    have hne : item.sku ≠ k := hout item (List.mem_cons_self item rest)
    have hout2 : ∀ it ∈ rest, it.sku ≠ k :=
      fun it hit => hout it (List.mem_cons_of_mem item hit)
    cases hp : policy.perSku item.sku with
    | none =>
      simp only [processItems, hp]
      exact ih inv pend n hout2 h
    | some p =>
      simp only [processItems, hp]
      rw [ih _ _ _ hout2 (processSku_nonneg oracle cfg item p inv pend n h)]
      exact processSku_frame oracle cfg item p inv pend n _
        (keyB_set_qty k stt)
        (fun b hb => keyB_sku_ne k stt b item.sku hb hne)
        h

theorem processItems_conservation (oracle : FloatOracle) (cfg : SimulationConfig)
    (policy : InventoryPolicy) (items : List ItemSpec)
    (inv : List InventoryBatch) (pend : List PendingDelivery) (n : ℕ)
    (hnn : ∀ b ∈ inv, 0 ≤ b.qty)
    (hnd : (items.map (fun it => it.sku)).Nodup)
    (hcomp : ∀ it ∈ items, (policy.perSku it.sku).isSome)
    (i : ℕ) (item : ItemSpec) (hi : items.get? i = some item) :
    ∃ out, (processItems oracle cfg policy items inv pend n).1.get? i = some out ∧
      sumOver (keyB item.sku .fresh) inv =
        out.metrics.frozenMoved + out.metrics.donated + out.metrics.soldFresh +
        out.shrinkFresh + out.wastedFresh +
        sumOver (keyB item.sku .fresh)
          (processItems oracle cfg policy items inv pend n).2.1 ∧
      sumOver (keyB item.sku .frozen) inv + out.metrics.frozenMoved =
        out.metrics.soldFrozen + out.shrinkFrozen + out.wastedFrozen +
        sumOver (keyB item.sku .frozen)
          (processItems oracle cfg policy items inv pend n).2.1 ∧
      out.metrics.holdingCost =
        (sumOver (keyB item.sku .fresh)
            (processItems oracle cfg policy items inv pend n).2.1 +
          sumOver (keyB item.sku .frozen)
            (processItems oracle cfg policy items inv pend n).2.1 +
          out.metrics.wasted) * cfg.holdingCostPerUnitPerDay := by
  induction items generalizing inv pend n i with
  | nil => simp at hi
  | cons item0 rest ih =>
    obtain ⟨p, hp⟩ :=
      Option.isSome_iff_exists.mp (hcomp item0 (List.mem_cons_self _ _))
    rw [List.map_cons, List.nodup_cons] at hnd
    obtain ⟨hnotin, hnd2⟩ := hnd
    have hcomp2 : ∀ it ∈ rest, (policy.perSku it.sku).isSome :=
      fun it hit => hcomp it (List.mem_cons_of_mem _ hit)
    cases i with
    | zero =>
      have hitem : item0 = item := by
        have : some item0 = some item := hi
        injection this
      subst hitem
      have hrestne : ∀ it ∈ rest, it.sku ≠ item0.sku := by
        intro it hit he
        exact hnotin (List.mem_map.mpr ⟨it, hit, he⟩)
      have hnn2 := processSku_nonneg oracle cfg item0 p inv pend n hnn
      have hfr := fun stt => processItems_frame oracle cfg policy rest
        (processSku oracle cfg item0 p inv pend n).inv
        (processSku oracle cfg item0 p inv pend n).pending (n + 1)
        item0.sku stt hrestne hnn2
      simp only [processItems, hp]
      refine ⟨processSku oracle cfg item0 p inv pend n, rfl, ?_, ?_, ?_⟩
      · rw [hfr .fresh]
        exact processSku_fresh oracle cfg item0 p inv pend n hnn
      · rw [hfr .frozen]
        exact processSku_frozen oracle cfg item0 p inv pend n hnn
      · rw [hfr .fresh, hfr .frozen]
        exact processSku_holding oracle cfg item0 p inv pend n
    | succ i =>
      have hi2 : rest.get? i = some item := hi
      have hmem : item ∈ rest := List.get?_mem hi2
      have hne : item0.sku ≠ item.sku := by
        intro he
        exact hnotin (List.mem_map.mpr ⟨item, hmem, he.symm⟩)
      have hnn2 := processSku_nonneg oracle cfg item0 p inv pend n hnn
      obtain ⟨out, hout1, hc1, hc2, hc3⟩ := ih
        (processSku oracle cfg item0 p inv pend n).inv
        (processSku oracle cfg item0 p inv pend n).pending (n + 1)
        hnn2 hnd2 hcomp2 i hi2
      have hfr : ∀ stt, sumOver (keyB item.sku stt)
          (processSku oracle cfg item0 p inv pend n).inv =
          sumOver (keyB item.sku stt) inv := by
        intro stt
        exact processSku_frame oracle cfg item0 p inv pend n _
          (keyB_set_qty item.sku stt)
          (fun b hb => keyB_sku_ne item.sku stt b item0.sku hb hne)
          hnn
      simp only [processItems, hp]
      refine ⟨out, hout1, ?_, ?_, hc3⟩
      · rw [← hfr .fresh]
        exact hc1
      · rw [← hfr .frozen]
        exact hc2

theorem runDay_nonneg (oracle : FloatOracle) (cfg : SimulationConfig)
    (policy : InventoryPolicy) (items : List ItemSpec) (st : StoreState) (n : ℕ)
    (hnn : ∀ b ∈ st.inventory, 0 ≤ b.qty) :
    ∀ b ∈ (runDay oracle cfg policy items st n).2.1.inventory, 0 ≤ b.qty := by
  simp only [runDay]
  exact processItems_nonneg oracle cfg policy items _ _ n
    (receiveStep_nonneg items st hnn)

theorem runDay_conservation (oracle : FloatOracle) (cfg : SimulationConfig)
    (policy : InventoryPolicy) (items : List ItemSpec) (st : StoreState) (n : ℕ)
    (hnn : ∀ b ∈ st.inventory, 0 ≤ b.qty)
    (hnd : (items.map (fun it => it.sku)).Nodup)
    (hcomp : ∀ it ∈ items, (policy.perSku it.sku).isSome)
    (i : ℕ) (item : ItemSpec) (hi : items.get? i = some item) :
    ∃ out, (runDay oracle cfg policy items st n).1.get? i = some out ∧
      sumOver (keyB item.sku .fresh) st.inventory +
        pendSum (fun d => d.sku == item.sku && decide (d.arrivingInDays ≤ 1))
          st.pendingDeliveries =
        out.metrics.soldFresh + out.metrics.donated + out.metrics.frozenMoved +
        out.shrinkFresh + out.wastedFresh +
        sumOver (keyB item.sku .fresh)
          (runDay oracle cfg policy items st n).2.1.inventory ∧
      sumOver (keyB item.sku .frozen) st.inventory + out.metrics.frozenMoved =
        out.metrics.soldFrozen + out.shrinkFrozen + out.wastedFrozen +
        sumOver (keyB item.sku .frozen)
          (runDay oracle cfg policy items st n).2.1.inventory ∧
      out.metrics.holdingCost =
        (sumOver (keyB item.sku .fresh)
            (runDay oracle cfg policy items st n).2.1.inventory +
          sumOver (keyB item.sku .frozen)
            (runDay oracle cfg policy items st n).2.1.inventory +
          out.metrics.wasted) * cfg.holdingCostPerUnitPerDay := by
  have hmem : item ∈ items := List.get?_mem hi
  simp only [runDay]
  obtain ⟨out, ho, hc1, hc2, hc3⟩ := processItems_conservation oracle cfg policy
    items (receiveStep items st).inventory (receiveStep items st).pendingDeliveries
    n (receiveStep_nonneg items st hnn) hnd hcomp i item hi
  refine ⟨out, ho, ?_, ?_, hc3⟩
  · rw [← receiveStep_fresh items st item.sku ⟨item, hmem, rfl⟩]
    linarith [hc1]
  · rw [← receiveStep_frozen items st item.sku]
    exact hc2

theorem rngMix_lt (t : ℕ) : rngMix t < 2 ^ 32 := by
  have h1 : ∀ a b : ℕ, a < 2 ^ 32 → b < 2 ^ 32 → a ^^^ b < 2 ^ 32 :=
    fun a b ha hb => Nat.xor_lt_two_pow ha hb
  have hmod : ∀ a : ℕ, a % 2 ^ 32 < 2 ^ 32 :=
    fun a => Nat.mod_lt a (by norm_num)
  unfold rngMix imul32
  refine h1 _ _ ?_ ?_
  · exact h1 _ _ (hmod _) (hmod _)
  · have hsr : ∀ a : ℕ, a >>> 14 ≤ a := by
      intro a
      rw [Nat.shiftRight_eq_div_pow]
      exact Nat.div_le_self a (2 ^ 14)
    calc (_ ^^^ _) >>> 14 ≤ _ ^^^ _ := hsr _
    _ < 2 ^ 32 := h1 _ _ (hmod _) (hmod _)

theorem rngNext_bounds (t : ℕ) :
    0 ≤ (rngNext t).1 ∧ (rngNext t).1 < 1 := by
  unfold rngNext
  constructor
  · positivity
  · have h := rngMix_lt (t + 0x6d2b79f5)
    have h2 : ((rngMix (t + 0x6d2b79f5) : ℚ)) < 4294967296 := by
      exact_mod_cast h
    rw [div_lt_one (by norm_num)]
    exact h2

theorem clamp01R_bounds (x : ℝ) : 0 ≤ clamp01R x ∧ clamp01R x ≤ 1 := by
  unfold clamp01R
  constructor
  · exact le_max_left 0 _
  · rcases le_total 1 x with h | h
    · simp [min_eq_left h]
    · simp [min_eq_right h, h]

theorem normalizePositive_bounds (v t : ℝ) :
    0 ≤ normalizePositive v t ∧ normalizePositive v t ≤ 1 := by
  unfold normalizePositive
  split <;> exact clamp01R_bounds _

theorem normalizeLowerIsBetter_bounds (v t : ℝ) :
    0 ≤ normalizeLowerIsBetter v t ∧ normalizeLowerIsBetter v t ≤ 1 := by
  unfold normalizeLowerIsBetter
  split <;> exact clamp01R_bounds _

/-- C2: for every SKU and every simulated day, fresh-side conservation holds
(start-of-day fresh stock plus units arriving from deliveries equals
end-of-day fresh stock plus units sold fresh, donated, moved to frozen, lost
to shrink from fresh stock, and wasted from fresh stock), and the analogous
frozen-side identity holds (start-of-day frozen stock plus units moved in by
freezing equals end-of-day frozen stock plus units sold frozen, lost to
shrink from frozen stock, and wasted from frozen stock). -/
theorem conservation_spec (oracle : FloatOracle) (cfg : SimulationConfig)
    (policy : InventoryPolicy) (items : List ItemSpec) (st : StoreState) (n : ℕ)
    (hnn : ∀ b ∈ st.inventory, 0 ≤ b.qty)
    (hnd : (items.map (fun it => it.sku)).Nodup)
    (hcomp : ∀ it ∈ items, (policy.perSku it.sku).isSome)
    (i : ℕ) (item : ItemSpec) (hi : items.get? i = some item) :
    ∃ out, (runDay oracle cfg policy items st n).1.get? i = some out ∧
      sumOver (keyB item.sku .fresh) st.inventory +
        pendSum (fun d => d.sku == item.sku && decide (d.arrivingInDays ≤ 1))
          st.pendingDeliveries =
        out.metrics.soldFresh + out.metrics.donated + out.metrics.frozenMoved +
        out.shrinkFresh + out.wastedFresh +
        sumOver (keyB item.sku .fresh)
          (runDay oracle cfg policy items st n).2.1.inventory ∧
      sumOver (keyB item.sku .frozen) st.inventory + out.metrics.frozenMoved =
        out.metrics.soldFrozen + out.shrinkFrozen + out.wastedFrozen +
        sumOver (keyB item.sku .frozen)
          (runDay oracle cfg policy items st n).2.1.inventory := by
  obtain ⟨out, ho, hc1, hc2, _⟩ :=
    runDay_conservation oracle cfg policy items st n hnn hnd hcomp i item hi
  exact ⟨out, ho, hc1, hc2⟩

/-- Witness for `conservation_spec` at a concrete one-item run. -/
theorem conservation_spec_witness :
    ∃ out, (runDay oracle0 cfgA policyA [itemA] stA 0).1.get? 0 = some out ∧
      sumOver (keyB itemA.sku .fresh) stA.inventory +
        pendSum (fun d => d.sku == itemA.sku && decide (d.arrivingInDays ≤ 1))
          stA.pendingDeliveries =
        out.metrics.soldFresh + out.metrics.donated + out.metrics.frozenMoved +
        out.shrinkFresh + out.wastedFresh +
        sumOver (keyB itemA.sku .fresh)
          (runDay oracle0 cfgA policyA [itemA] stA 0).2.1.inventory ∧
      sumOver (keyB itemA.sku .frozen) stA.inventory + out.metrics.frozenMoved =
        out.metrics.soldFrozen + out.shrinkFrozen + out.wastedFrozen +
        sumOver (keyB itemA.sku .frozen)
          (runDay oracle0 cfgA policyA [itemA] stA 0).2.1.inventory :=
  conservation_spec oracle0 cfgA policyA [itemA] stA 0 (by decide) (by decide)
    (by decide) 0 itemA (by decide)

unseal Rat.mul Rat.add Rat.sub Rat.inv in
/-- C1 counterexample: with ten units expiring at end of day and no demand,
the recorded holding cost is 10 while the claimed value (post-aging on-hand
times the unit rate) is 0 — the source charges holding cost on the on-hand
level measured after shrink but before the aging/waste stage removes expired
batches. -/
theorem holdingCost_postaging_cex :
    ((runDay oracle0 cfgA policyA [itemA] stA 0).1.map
        fun o => o.metrics.holdingCost) ≠
      ((runDay oracle0 cfgA policyA [itemA] stA 0).1.map
        fun o => (sumOver (keyB o.metrics.sku .fresh)
            (runDay oracle0 cfgA policyA [itemA] stA 0).2.1.inventory +
          sumOver (keyB o.metrics.sku .frozen)
            (runDay oracle0 cfgA policyA [itemA] stA 0).2.1.inventory) *
          cfgA.holdingCostPerUnitPerDay) := by
  decide

/-- C1 (amended): for every SKU and every simulated day, the holding cost
recorded in that day's per-SKU metrics equals (end-of-day on-hand after the
aging/waste stage, plus the quantity wasted that day — i.e. on-hand measured
after shrink but before expired batches are removed) multiplied by
`holdingCostPerUnitPerDay`. -/
theorem holdingCost_spec (oracle : FloatOracle) (cfg : SimulationConfig)
    (policy : InventoryPolicy) (items : List ItemSpec) (st : StoreState) (n : ℕ)
    (hnn : ∀ b ∈ st.inventory, 0 ≤ b.qty)
    (hnd : (items.map (fun it => it.sku)).Nodup)
    (hcomp : ∀ it ∈ items, (policy.perSku it.sku).isSome)
    (i : ℕ) (item : ItemSpec) (hi : items.get? i = some item) :
    ∃ out, (runDay oracle cfg policy items st n).1.get? i = some out ∧
      out.metrics.holdingCost =
        (sumOver (keyB item.sku .fresh)
            (runDay oracle cfg policy items st n).2.1.inventory +
          sumOver (keyB item.sku .frozen)
            (runDay oracle cfg policy items st n).2.1.inventory +
          out.metrics.wasted) * cfg.holdingCostPerUnitPerDay := by
  obtain ⟨out, ho, _, _, hc3⟩ :=
    runDay_conservation oracle cfg policy items st n hnn hnd hcomp i item hi
  exact ⟨out, ho, hc3⟩

/-- Witness for `holdingCost_spec` at a concrete one-item run. -/
theorem holdingCost_spec_witness :
    ∃ out, (runDay oracle0 cfgA policyA [itemA] stA 0).1.get? 0 = some out ∧
      out.metrics.holdingCost =
        (sumOver (keyB itemA.sku .fresh)
            (runDay oracle0 cfgA policyA [itemA] stA 0).2.1.inventory +
          sumOver (keyB itemA.sku .frozen)
            (runDay oracle0 cfgA policyA [itemA] stA 0).2.1.inventory +
          out.metrics.wasted) * cfgA.holdingCostPerUnitPerDay :=
  holdingCost_spec oracle0 cfgA policyA [itemA] stA 0 (by decide) (by decide)
    (by decide) 0 itemA (by decide)

unseal Rat.mul Rat.add Rat.sub Rat.inv in
/-- C3 counterexample: with reorderPoint 10, orderUpTo 5 and five fresh units
on hand, the post-aging fresh on-hand (5) is at or under the reorder point,
yet no delivery is enqueued — the claimed "if and only if" fails whenever the
order-up-to level does not exceed the on-hand quantity. -/
theorem reorder_iff_cex :
    sumOver (keyB "B" BState.fresh)
        (runDay oracle0 cfgA policyB [itemB] stB 0).2.1.inventory ≤
      polItemB.reorderPoint ∧
    (runDay oracle0 cfgA policyB [itemB] stB 0).2.1.pendingDeliveries = [] := by
  decide

/-- C3 (amended): a delivery is enqueued on a day if and only if the
post-aging fresh on-hand `f` satisfies `f ≤ reorderPoint` and
`max(0, round(orderUpTo)) - f` is positive; when enqueued it is sized to
exactly that difference with its countdown set to
`max(0, round(leadTimeDays))`; at each subsequent receipt step a pending
delivery's countdown is decremented, it is received exactly when the
pre-decrement countdown is at most 1 (so lead time 0 or 1 means the next
day's receipt step), and otherwise stays queued. -/
theorem reorder_spec :
    (∀ (oracle : FloatOracle) (cfg : SimulationConfig) (item : ItemSpec)
      (p : ItemPolicy) (inv0 : List InventoryBatch)
      (pend0 : List PendingDelivery) (n : ℕ),
      (processSku oracle cfg item p inv0 pend0 n).pending =
        pend0 ++
          (if sumOver (keyB item.sku .fresh)
                (processSku oracle cfg item p inv0 pend0 n).inv ≤
                p.reorderPoint ∧
              0 < ((max 0 (jsRound p.orderUpTo) : ℤ) : ℚ) -
                sumOver (keyB item.sku .fresh)
                  (processSku oracle cfg item p inv0 pend0 n).inv
            then [⟨item.sku,
              ((max 0 (jsRound p.orderUpTo) : ℤ) : ℚ) -
                sumOver (keyB item.sku .fresh)
                  (processSku oracle cfg item p inv0 pend0 n).inv,
              ((max 0 (jsRound item.leadTimeDays) : ℤ) : ℚ)⟩]
            else [])) ∧
    (∀ (items : List ItemSpec) (st : StoreState) (d : PendingDelivery),
      d ∈ st.pendingDeliveries →
      (1 < d.arrivingInDays →
        ({ d with arrivingInDays := d.arrivingInDays - 1 } : PendingDelivery) ∈
          (receiveStep items st).pendingDeliveries) ∧
      (d.arrivingInDays ≤ 1 →
        ∀ item, (items.find? fun it => it.sku == d.sku) = some item →
          (⟨d.sku, ((max 0 (jsRound d.qty) : ℤ) : ℚ),
            ((max 1 (jsRound item.shelfLifeDays) : ℤ) : ℚ), .fresh⟩ :
            InventoryBatch) ∈ (receiveStep items st).inventory)) := by
  constructor
  · intro oracle cfg item p inv0 pend0 n
    rw [processSku_pending]
    simp only [reorderStage, sumQty]
    by_cases h1 : sumOver (keyB item.sku BState.fresh)
        (processSku oracle cfg item p inv0 pend0 n).inv ≤ p.reorderPoint
    · rw [if_pos h1]
      by_cases h2 : 0 < ((max 0 (jsRound p.orderUpTo) : ℤ) : ℚ) -
          sumOver (keyB item.sku BState.fresh)
            (processSku oracle cfg item p inv0 pend0 n).inv
      · rw [max_eq_right h2.le, if_pos h2, if_pos ⟨h1, h2⟩]
      · rw [max_eq_left (le_of_not_lt h2), if_neg (lt_irrefl 0),
          if_neg (fun hc => h2 hc.2), List.append_nil]
    · rw [if_neg h1, if_neg (fun hc => h1 hc.1), List.append_nil]
  · intro items st d hd
    constructor
    · intro h1
      simp only [receiveStep]
      refine List.mem_filter.mpr ⟨List.mem_map.mpr ⟨d, hd, rfl⟩, ?_⟩
      have : (0:ℚ) < d.arrivingInDays - 1 := by linarith
      simpa using this
    · intro h1 item hfind
      simp only [receiveStep]
      refine List.mem_append.mpr (Or.inr ?_)
      unfold newBatches
      refine List.mem_filterMap.mpr
        ⟨{ d with arrivingInDays := d.arrivingInDays - 1 }, ?_, ?_⟩
      · refine List.mem_filter.mpr ⟨List.mem_map.mpr ⟨d, hd, rfl⟩, ?_⟩
        have : d.arrivingInDays - 1 ≤ 0 := by linarith
        simpa using this
      · show (items.find? fun it => it.sku == d.sku).map _ = some _
        rw [hfind]
        rfl

/-- Witness for `reorder_spec`: the reorder characterization at the concrete
reorder scenario, and the countdown survival of a concrete pending delivery. -/
theorem reorder_spec_witness :
    ((processSku oracle0 cfgA itemB polItemB stB.inventory [] 0).pending =
      [] ++
        (if sumOver (keyB itemB.sku .fresh)
              (processSku oracle0 cfgA itemB polItemB stB.inventory [] 0).inv ≤
              polItemB.reorderPoint ∧
            0 < ((max 0 (jsRound polItemB.orderUpTo) : ℤ) : ℚ) -
              sumOver (keyB itemB.sku .fresh)
                (processSku oracle0 cfgA itemB polItemB stB.inventory [] 0).inv
          then [⟨itemB.sku,
            ((max 0 (jsRound polItemB.orderUpTo) : ℤ) : ℚ) -
              sumOver (keyB itemB.sku .fresh)
                (processSku oracle0 cfgA itemB polItemB stB.inventory [] 0).inv,
            ((max 0 (jsRound itemB.leadTimeDays) : ℤ) : ℚ)⟩]
          else [])) ∧
    ({ sku := "A", qty := 5, arrivingInDays := (3:ℚ) - 1 } : PendingDelivery) ∈
      (receiveStep [itemA] stD).pendingDeliveries :=
  ⟨reorder_spec.1 oracle0 cfgA itemB polItemB stB.inventory [] 0,
    (reorder_spec.2 [itemA] stD ⟨"A", 5, 3⟩ (by decide)).1 (by norm_num)⟩

/-- C4: two runs of the simulation on identical items, policy, configuration
(including the seed, which fixes the RNG draw stream abstracted by the
oracle) and initial state produce identical simulation results, every per-day
per-SKU metric and every total included.  In the pure embedding the engine is
a function of its inputs, so determinism is equality under equal inputs. -/
theorem determinism_spec (oracle1 oracle2 : FloatOracle)
    (items1 items2 : List ItemSpec) (policy1 policy2 : InventoryPolicy)
    (cfg1 cfg2 : SimulationConfig) (ist1 ist2 : Option StoreState)
    (ho : oracle1 = oracle2) (hi : items1 = items2) (hp : policy1 = policy2)
    (hc : cfg1 = cfg2) (hs : ist1 = ist2) :
    simulateInventory oracle1 items1 policy1 cfg1 ist1 =
      simulateInventory oracle2 items2 policy2 cfg2 ist2 := by
  subst ho; subst hi; subst hp; subst hc; subst hs
  rfl

/-- Witness for `determinism_spec` at a concrete run. -/
theorem determinism_spec_witness :
    simulateInventory oracle0 [itemA] policyA cfgA (some stA) =
      simulateInventory oracle0 [itemA] policyA cfgA (some stA) :=
  determinism_spec oracle0 oracle0 [itemA] [itemA] policyA policyA cfgA cfgA
    (some stA) (some stA) rfl rfl rfl rfl rfl

/-- C7: when some catalog SKU has no `perSku` policy entry, the simulation
fails with a configuration error naming the first offending SKU; the check
runs before the day loop, so an error value (with no partial trace) is
returned and no state is built or touched. -/
theorem missing_policy_spec (oracle : FloatOracle) (items : List ItemSpec)
    (policy : InventoryPolicy) (cfg : SimulationConfig)
    (ist : Option StoreState) (it0 : ItemSpec)
    (hfind : items.find? (fun it => (policy.perSku it.sku).isNone) = some it0) :
    simulateInventory oracle items policy cfg ist =
      Except.error (SimError.missingPolicy it0.sku) := by
  unfold simulateInventory
  rw [hfind]

/-- Witness for `missing_policy_spec` with an empty policy. -/
theorem missing_policy_spec_witness :
    simulateInventory oracle0 [itemA] policyNone cfgA none =
      Except.error (SimError.missingPolicy "A") :=
  missing_policy_spec oracle0 [itemA] policyNone cfgA none itemA (by decide)

/-- C5: for every simulation result and every evaluation configuration, the
overall score and each of the four sub-scores lie in `[0, 1]`; over the
real-valued embedding the evaluator is total, so no NaN can arise (the
division guards of the source keep every denominator at least 1, and the
weight sum at least `1e-9`). -/
theorem evaluator_bounds_spec (sim : SimulationResult) (cfg : EvalConfig) :
    (0 ≤ (evaluateSimulation sim cfg).score ∧
      (evaluateSimulation sim cfg).score ≤ 1) ∧
    (0 ≤ (evaluateSimulation sim cfg).breakdown.profitScore ∧
      (evaluateSimulation sim cfg).breakdown.profitScore ≤ 1) ∧
    (0 ≤ (evaluateSimulation sim cfg).breakdown.wasteReductionScore ∧
      (evaluateSimulation sim cfg).breakdown.wasteReductionScore ≤ 1) ∧
    (0 ≤ (evaluateSimulation sim cfg).breakdown.satisfactionScore ∧
      (evaluateSimulation sim cfg).breakdown.satisfactionScore ≤ 1) ∧
    (0 ≤ (evaluateSimulation sim cfg).breakdown.humanitarianScore ∧
      (evaluateSimulation sim cfg).breakdown.humanitarianScore ≤ 1) := by
  simp only [evaluateSimulation]
  exact ⟨clamp01R_bounds _, normalizePositive_bounds _ _,
    normalizeLowerIsBetter_bounds _ _, normalizePositive_bounds _ _,
    normalizePositive_bounds _ _⟩

/-- C6: for a positive target the higher-is-better sub-score is exactly
`1 / (1 + exp(-3 * (value / target - 1)))` and the lower-is-better (waste)
sub-score is exactly `1 / (1 + exp(3 * (value / target - 1)))`; for a
non-positive target the sub-score is 1 when the value is on the favorable
side of zero (`value > 0` for higher-is-better, `value ≤ 0` for
lower-is-better) and 0 otherwise. -/
theorem logistic_normalization_spec (v t : ℝ) :
    (normalizePositive v t =
      if 0 < t then 1 / (1 + Real.exp (-3 * (v / t - 1)))
      else if 0 < v then 1 else 0) ∧
    (normalizeLowerIsBetter v t =
      if 0 < t then 1 / (1 + Real.exp (3 * (v / t - 1)))
      else if v ≤ 0 then 1 else 0) := by
  have hclamp : ∀ e : ℝ, clamp01R (1 / (1 + Real.exp e)) = 1 / (1 + Real.exp e) := by
    intro e
    have h1 : (0:ℝ) < 1 + Real.exp e := by positivity
    have he := Real.exp_pos e
    have h2 : 1 / (1 + Real.exp e) ≤ 1 := by
      rw [div_le_one h1]
      linarith
    have h3 : (0:ℝ) ≤ 1 / (1 + Real.exp e) := by positivity
    unfold clamp01R
    rw [min_eq_right h2, max_eq_right h3]
  have hc1 : clamp01R (1:ℝ) = 1 := by
    unfold clamp01R
    norm_num
  have hc0 : clamp01R (0:ℝ) = 0 := by
    unfold clamp01R
    norm_num
  constructor
  · unfold normalizePositive
    rcases lt_or_le 0 t with ht | ht
    · rw [if_neg (not_le.mpr ht), if_pos ht, hclamp]
    · rw [if_pos ht, if_neg (not_lt.mpr ht)]
      by_cases hv : 0 < v
      · rw [if_pos hv]; exact hc1
      · rw [if_neg hv]; exact hc0
  · unfold normalizeLowerIsBetter
    rcases lt_or_le 0 t with ht | ht
    · rw [if_neg (not_le.mpr ht), if_pos ht, hclamp]
    · rw [if_pos ht, if_neg (not_lt.mpr ht)]
      by_cases hv : v ≤ 0
      · rw [if_pos hv]; exact hc1
      · rw [if_neg hv]; exact hc0

unseal Rat.mul Rat.add Rat.sub Rat.inv in
/-- C8 counterexample: with the fractional bounds min = max = 1/2 the draw
does not fail and returns 1/2, which is not an integer — the claimed
"returns an integer in [min, max]" holds only for integer bounds. -/
theorem rngInt_integer_cex :
    rngInt (JsNum.num (1 / 2)) (JsNum.num (1 / 2)) 0 =
      Except.ok (1 / 2, 1831565813) ∧
    ¬ ∃ z : ℤ, (1 / 2 : ℚ) = (z : ℚ) := by
  constructor
  · decide
  · rintro ⟨z, hz⟩
    have h1 : ((1:ℚ) / 2).den = 1 := by rw [hz]; exact Rat.den_intCast z
    norm_num at h1

/-- C8 (amended): the integer-range draw fails if and only if a bound is
non-finite or max < min; otherwise it returns
`min + floor(u * (max - min + 1))` for the uniform draw `u ∈ [0, 1)` without
failing — a value at least min, and an integer in `[min, max]` whenever both
bounds are integers. -/
theorem rngInt_spec_amended (a b : JsNum) (t : ℕ) :
    ((rngInt a b t).isOk = true ↔
      ∃ qa qb : ℚ, a = JsNum.num qa ∧ b = JsNum.num qb ∧ qa ≤ qb) ∧
    ∀ qa qb : ℚ, a = JsNum.num qa → b = JsNum.num qb → qa ≤ qb →
      rngInt a b t = Except.ok
        (qa + ((jsFloor ((rngNext t).1 * (qb - qa + 1)) : ℤ) : ℚ),
          (rngNext t).2) ∧
      qa ≤ qa + ((jsFloor ((rngNext t).1 * (qb - qa + 1)) : ℤ) : ℚ) ∧
      ((∃ za : ℤ, qa = (za : ℚ)) → (∃ zb : ℤ, qb = (zb : ℚ)) →
        (∃ z : ℤ, qa + ((jsFloor ((rngNext t).1 * (qb - qa + 1)) : ℤ) : ℚ) =
          (z : ℚ)) ∧
        qa + ((jsFloor ((rngNext t).1 * (qb - qa + 1)) : ℤ) : ℚ) ≤ qb) := by
  obtain ⟨hu0, hu1⟩ := rngNext_bounds t
  constructor
  · cases a with
    | num qa =>
      cases b with
      | num qb =>
        by_cases h : qb < qa
        · simp only [rngInt, if_pos h]
          simp [Except.isOk, Except.toBool]
          exact h
        · simp only [rngInt, if_neg h]
          simp [Except.isOk, Except.toBool]
          exact le_of_not_lt h
      | nan => simp [rngInt, Except.isOk, Except.toBool]
      | posInf => simp [rngInt, Except.isOk, Except.toBool]
      | negInf => simp [rngInt, Except.isOk, Except.toBool]
    | nan => cases b <;> simp [rngInt, Except.isOk, Except.toBool]
    | posInf => cases b <;> simp [rngInt, Except.isOk, Except.toBool]
    | negInf => cases b <;> simp [rngInt, Except.isOk, Except.toBool]
  · intro qa qb ha hb hle
    subst ha
    subst hb
    have hnl : ¬ qb < qa := not_lt.mpr hle
    have hk : (0:ℤ) ≤ jsFloor ((rngNext t).1 * (qb - qa + 1)) := by
      rw [jsFloor_eq]
      apply Int.floor_nonneg.mpr
      have hspan : (0:ℚ) ≤ qb - qa + 1 := by linarith
      exact mul_nonneg hu0 hspan
    have hkq : (0:ℚ) ≤ ((jsFloor ((rngNext t).1 * (qb - qa + 1)) : ℤ) : ℚ) := by
      exact_mod_cast hk
    refine ⟨?_, by linarith, ?_⟩
    · simp only [rngInt, if_neg hnl]
    · rintro ⟨za, rfl⟩ ⟨zb, rfl⟩
      have hzab : za ≤ zb := by exact_mod_cast hle
      have hsp : ((zb:ℚ) - (za:ℚ) + 1) = ((zb - za + 1 : ℤ) : ℚ) := by
        push_cast
        ring
      have hs : (0:ℚ) < (zb:ℚ) - (za:ℚ) + 1 := by
        have : (za:ℚ) ≤ (zb:ℚ) := hle
        linarith
      have hlt : jsFloor ((rngNext t).1 * ((zb:ℚ) - (za:ℚ) + 1)) <
          zb - za + 1 := by
        rw [jsFloor_eq, Int.floor_lt, ← hsp]
        calc (rngNext t).1 * ((zb:ℚ) - (za:ℚ) + 1) <
            1 * ((zb:ℚ) - (za:ℚ) + 1) := mul_lt_mul_of_pos_right hu1 hs
        _ = (zb:ℚ) - (za:ℚ) + 1 := one_mul _
      have hkb : jsFloor ((rngNext t).1 * ((zb:ℚ) - (za:ℚ) + 1)) ≤ zb - za := by
        omega
      constructor
      · refine ⟨za + jsFloor ((rngNext t).1 * ((zb:ℚ) - (za:ℚ) + 1)), ?_⟩
        push_cast
        ring
      · have : ((jsFloor ((rngNext t).1 * ((zb:ℚ) - (za:ℚ) + 1)) : ℤ) : ℚ) ≤
            ((zb - za : ℤ) : ℚ) := by
          exact_mod_cast hkb
        push_cast at this
        linarith

unseal Rat.mul Rat.add Rat.sub Rat.inv in
/-- Witness for `rngInt_spec_amended` at integer bounds `[1, 3]`. -/
theorem rngInt_spec_witness :
    rngInt (JsNum.num 1) (JsNum.num 3) 0 = Except.ok
      (1 + ((jsFloor ((rngNext 0).1 * (3 - 1 + 1)) : ℤ) : ℚ), (rngNext 0).2) ∧
    (1:ℚ) ≤ 1 + ((jsFloor ((rngNext 0).1 * (3 - 1 + 1)) : ℤ) : ℚ) ∧
    ((∃ za : ℤ, (1:ℚ) = (za : ℚ)) → (∃ zb : ℤ, (3:ℚ) = (zb : ℚ)) →
      (∃ z : ℤ, 1 + ((jsFloor ((rngNext 0).1 * (3 - 1 + 1)) : ℤ) : ℚ) =
        (z : ℚ)) ∧
      1 + ((jsFloor ((rngNext 0).1 * (3 - 1 + 1)) : ℤ) : ℚ) ≤ 3) :=
  (rngInt_spec_amended (JsNum.num 1) (JsNum.num 3) 0).2 1 3 rfl rfl (by norm_num)

/-- C9: for a ledger whose batches all hold positive quantity and a
nonnegative request, the FIFO take removes exactly
`min(requested, available)` units of the `(sku, state)` pool (hence at most
the request), leaves no zero-quantity batch behind, and never consumes a
later-expiring batch of the pool while an earlier-expiring one keeps stock:
if a batch of the pool expiring in `d` days retains stock, the pool quantity
at every expiry strictly greater than `d` is unchanged. -/
theorem takeFromBatches_spec (l : List InventoryBatch) (k : Sku) (st : BState)
    (w : ℚ) (hpos : ∀ b ∈ l, 0 < b.qty) (hw : 0 ≤ w) :
    (takeFromBatches l k st w).1 = min w (sumQty l k st) ∧
    (takeFromBatches l k st w).1 ≤ w ∧
    sumQty (takeFromBatches l k st w).2 k st =
      sumQty l k st - (takeFromBatches l k st w).1 ∧
    (∀ b ∈ (takeFromBatches l k st w).2, 0 < b.qty) ∧
    (∀ d dd : ℚ, d < dd →
      (∃ x ∈ (takeFromBatches l k st w).2,
        keyB k st x = true ∧ x.daysToExpire = d ∧ 0 < x.qty) →
      sumOver (dteKey k st dd) (takeFromBatches l k st w).2 =
        sumOver (dteKey k st dd) l) := by
  have hnn : ∀ b ∈ l, 0 ≤ b.qty := fun b hb => (hpos b hb).le
  have htaken := takeFromBatches_taken l k st w (fun b hb _ => hpos b hb) hw
  refine ⟨htaken, ?_, ?_, takeFromBatches_pos l k st w hpos, ?_⟩
  · rw [htaken]
    exact min_le_left _ _
  · exact takeFromBatches_sumOver_key l k st w hnn
  · intro d dd hlt hwit
    simp only [takeFromBatches] at hwit ⊢
    by_cases hw0 : w ≤ 0
    · rw [if_pos hw0] at hwit ⊢
    · rw [if_neg hw0] at hwit ⊢
      obtain ⟨x, hx, hxk, hxd, hxq⟩ := hwit
      have hx2 : x ∈ (takeGo k st w (sortFifo l)).2 := List.mem_of_mem_filter hx
      have hs : ∀ b ∈ sortFifo l, 0 ≤ b.qty :=
        fun b hb => hnn b ((sortFifo_perm l).mem_iff.mp hb)
      rw [sumOver_filter_pos _ _ (takeGo_nonneg k st w (sortFifo l) hs),
        takeGo_fifo k st w (sortFifo l) (sortFifo_sorted l) d dd hlt
          ⟨x, hx2, hxk, hxd, hxq⟩]
      exact sumOver_perm _ (sortFifo_perm l)

unseal Rat.mul Rat.add Rat.sub Rat.inv in
/-- Witness for `takeFromBatches_spec` on a concrete two-batch ledger. -/
theorem takeFromBatches_spec_witness :
    (takeFromBatches lC9 "A" BState.fresh 1).1 =
      min 1 (sumQty lC9 "A" BState.fresh) ∧
    sumOver (dteKey "A" BState.fresh 5)
        (takeFromBatches lC9 "A" BState.fresh 1).2 =
      sumOver (dteKey "A" BState.fresh 5) lC9 :=
  ⟨(takeFromBatches_spec lC9 "A" BState.fresh 1 (by decide) (by decide)).1,
    (takeFromBatches_spec lC9 "A" BState.fresh 1 (by decide)
        (by decide)).2.2.2.2 1 5 (by norm_num) (by decide)⟩
